import Mathlib

/-!
# Verification of the grid-placement scheduling engine

Shallow embedding of the tournament scheduling engine found in
`src/store.ts` and `src/types.ts` of the repository: the grid-addressing
helpers, the placement validator, direct placement, cascading insertion,
append placement, compaction, undo, and the greedy auto-packer.

Modelling conventions:
* JavaScript numbers used as grid coordinates (`row`, `col`, linear cell
  indices) are modelled as `Int`; counts (`matchCount`, `courtCount`) are
  `Nat` (the configuration UI enforces integral values `≥ 1` for both).
* `Math.floor(i / cc)` is `Int.fdiv i cc` and the JavaScript remainder
  `i % cc` (sign of the dividend) is `Int.tmod i cc`.
* `Array.prototype.sort` (stable, comparator-driven) is modelled by
  `List.insertionSort`, which is also stable; for a consistent comparator
  the two produce the same list.
* `Array.prototype.slice(-20)` is dropping all but the last 20 entries.
* The unbounded row scan of the auto-packer is modelled with explicit
  fuel (`autoScheduleFuel`); the scan is a genuine `while` loop in the
  source, so termination is a theorem, not a definitional fact.
-/

namespace Echeancier

/-- A round of a series: `matchCount` consecutive lanes, 1-indexed
`roundNumber` inside its series (from `types.ts`, interface `Round`). -/
structure Round where
  id : String
  seriesId : String
  roundNumber : Nat
  matchCount : Nat
  label : String
  deriving DecidableEq, Repr

/-- A series: an ordered list of rounds (from `types.ts`, interface
`Series`). -/
structure Series where
  id : String
  name : String
  shortName : String
  color : String
  rounds : List Round
  deriving DecidableEq, Repr

/-- A placement of a round on the grid (from `types.ts`, interface
`ScheduledRound`). -/
structure ScheduledRound where
  roundId : String
  row : Int
  startCol : Int
  deriving DecidableEq, Repr

/-- Tournament settings; only `courtCount` (the lane count) is read by the
engine (from `types.ts`, interface `TournamentSettings`). -/
structure TournamentSettings where
  courtCount : Nat
  timeSlotDuration : Nat
  startTime : String
  endTime : String
  deriving DecidableEq, Repr

/-- The two UI phases (from `types.ts`, `currentPhase`). -/
inductive Phase where
  | config
  | schedule
  deriving DecidableEq, Repr

/-- The persistent store state (from `types.ts`, interface
`TournamentState`). -/
structure TournamentState where
  settings : TournamentSettings
  series : List Series
  schedule : List ScheduledRound
  scheduleHistory : List (List ScheduledRound)
  currentPhase : Phase
  deriving DecidableEq, Repr

/-- `getRoundCellPositions` from `types.ts`: walk `matchCount` cells from
`(startRow, startCol)`, advancing the column and wrapping to
`(row + 1, 0)` once the column reaches `courtCount`. -/
def getRoundCellPositions (startRow startCol : Int) (matchCount courtCount : Nat) :
    List (Int × Int) :=
  match matchCount with
  | 0 => []
  | n + 1 =>
    if (courtCount : Int) ≤ startCol + 1 then
      (startRow, startCol) :: getRoundCellPositions (startRow + 1) 0 n courtCount
    else
      (startRow, startCol) :: getRoundCellPositions startRow (startCol + 1) n courtCount

/-- `posToLinearIndex` as used throughout `store.ts`:
`row * courtCount + col`. -/
def posToLinearIndex (courtCount : Nat) (p : Int × Int) : Int :=
  p.1 * (courtCount : Int) + p.2

/-- `Math.floor(i / courtCount)` on an `Int` index. -/
def indexToRow (courtCount : Nat) (i : Int) : Int :=
  Int.fdiv i (courtCount : Int)

/-- The JavaScript remainder `i % courtCount` (truncated, sign of the
dividend). -/
def indexToCol (courtCount : Nat) (i : Int) : Int :=
  Int.tmod i (courtCount : Int)

/-- `[...history, schedule].slice(-20)`: push a snapshot, keeping only the
last 20 entries. -/
def pushHistory (history : List (List ScheduledRound)) (schedule : List ScheduledRound) :
    List (List ScheduledRound) :=
  let l := history ++ [schedule]
  l.drop (l.length - 20)

/-- The round-lookup loop appearing in every operation of `store.ts`:
scan the series in order and return the first round whose `id` matches,
together with its series. -/
def findRoundInSeries (series : List Series) (roundId : String) :
    Option (Round × Series) :=
  match series with
  | [] => none
  | s :: rest =>
    match s.rounds.find? (fun r => r.id == roundId) with
    | some r => some (r, s)
    | none => findRoundInSeries rest roundId

/-- The `getOccupiedPositions` helper of `removeEmptyCell` and
`scheduleRoundWithPush`: the footprint of a scheduled round, resolving its
span through `findRoundInSeries`; a dangling `roundId` contributes its
single start cell. -/
def getOccupiedPositions (series : List Series) (courtCount : Nat)
    (sr : ScheduledRound) : List (Int × Int) :=
  match findRoundInSeries series sr.roundId with
  | some (r, _) => getRoundCellPositions sr.row sr.startCol r.matchCount courtCount
  | none => [(sr.row, sr.startCol)]

/-- Cell-set intersection test between two footprints
(`positions.some(pos => target.some(tp => tp.row === pos.row && tp.col === pos.col))`). -/
def hasCellOverlap (positions targetPositions : List (Int × Int)) : Bool :=
  positions.any (fun pos => targetPositions.any (fun tp => tp == pos))

/-- Number of cells of `positions` that also lie in `targetPositions`
(`positions.filter(...).length` in `scheduleRoundWithPush`). -/
def overlapCellCount (positions targetPositions : List (Int × Int)) : Nat :=
  (positions.filter (fun pos => targetPositions.any (fun tp => tp == pos))).length

/-- `scheduleRound` (direct placement): push history, drop any previous
placement of the round, append the new placement. -/
def scheduleRound (st : TournamentState) (roundId : String) (row col : Int) :
    TournamentState :=
  let newHistory := pushHistory st.scheduleHistory st.schedule
  let filtered := st.schedule.filter (fun sr => sr.roundId != roundId)
  { st with schedule := filtered ++ [⟨roundId, row, col⟩], scheduleHistory := newHistory }

/-- `unscheduleRound`: push history, remove the round's placement. -/
def unscheduleRound (st : TournamentState) (roundId : String) : TournamentState :=
  let newHistory := pushHistory st.scheduleHistory st.schedule
  { st with schedule := st.schedule.filter (fun sr => sr.roundId != roundId),
            scheduleHistory := newHistory }

/-- `moveScheduledRound`: push history, rewrite the entry's position. -/
def moveScheduledRound (st : TournamentState) (roundId : String) (newRow newCol : Int) :
    TournamentState :=
  let newHistory := pushHistory st.scheduleHistory st.schedule
  { st with
      schedule := st.schedule.map (fun sr =>
        if sr.roundId == roundId then { sr with row := newRow, startCol := newCol } else sr),
      scheduleHistory := newHistory }

/-- `clearSchedule`: push history, empty the schedule. -/
def clearSchedule (st : TournamentState) : TournamentState :=
  let newHistory := pushHistory st.scheduleHistory st.schedule
  { st with schedule := [], scheduleHistory := newHistory }

/-- `undoSchedule`: pop the most recent history entry and restore it as
the schedule; no-op on an empty history. -/
def undoSchedule (st : TournamentState) : TournamentState :=
  match st.scheduleHistory.getLast? with
  | none => st
  | some previousSchedule =>
    { st with schedule := previousSchedule, scheduleHistory := st.scheduleHistory.dropLast }

/-- Shift a scheduled round's start by `amount` cells along the linear
order, converting back with `Math.floor` division and the JavaScript
remainder (the shift step of `scheduleRoundWithPush` and, with
`amount = -1`, of `removeEmptyCell`). -/
def shiftScheduledRound (courtCount : Nat) (amount : Int) (sr : ScheduledRound) :
    ScheduledRound :=
  let newIndex := posToLinearIndex courtCount (sr.row, sr.startCol) + amount
  { sr with row := indexToRow courtCount newIndex, startCol := indexToCol courtCount newIndex }

/-- `removeEmptyCell` (compaction): if the cell is occupied by any
footprint, warn and do nothing; otherwise shift every round starting
strictly after the cell back by one cell and push history. -/
def removeEmptyCell (st : TournamentState) (row col : Int) : TournamentState :=
  let cc := st.settings.courtCount
  let cellOccupied := st.schedule.any (fun sr =>
    (getOccupiedPositions st.series cc sr).any (fun p => p == (row, col)))
  if cellOccupied then st
  else
    let targetCellIndex := posToLinearIndex cc (row, col)
    let roundsToShift := st.schedule.filter (fun sr =>
      decide (targetCellIndex < posToLinearIndex cc (sr.row, sr.startCol)))
    let roundsNotToShift := st.schedule.filter (fun sr =>
      !(decide (targetCellIndex < posToLinearIndex cc (sr.row, sr.startCol))))
    let sorted := roundsToShift.insertionSort (fun a b =>
      posToLinearIndex cc (a.row, a.startCol) ≤ posToLinearIndex cc (b.row, b.startCol))
    let shiftedRounds := sorted.map (shiftScheduledRound cc (-1))
    { st with schedule := roundsNotToShift ++ shiftedRounds,
              scheduleHistory := pushHistory st.scheduleHistory st.schedule }

/-- The splitting test of `scheduleRoundWithPush`: some already-scheduled
round's footprint meets the target footprint in strictly more than zero
and strictly fewer than all of its cells. -/
def splitsExistingRound (series : List Series) (courtCount : Nat)
    (newSchedule : List ScheduledRound) (targetPositions : List (Int × Int)) : Bool :=
  newSchedule.any (fun sr =>
    let positions := getOccupiedPositions series courtCount sr
    let overlappingCells := overlapCellCount positions targetPositions
    decide (0 < overlappingCells) && decide (overlappingCells < positions.length))

/-- The SHIFT test of `scheduleRoundWithPush`: a round is shifted when its
footprint meets the target footprint or it starts at or after the target
start index. -/
def shouldShift (series : List Series) (courtCount : Nat)
    (targetPositions : List (Int × Int)) (targetStartIndex : Int)
    (sr : ScheduledRound) : Bool :=
  hasCellOverlap (getOccupiedPositions series courtCount sr) targetPositions
    || decide (targetStartIndex ≤ posToLinearIndex courtCount (sr.row, sr.startCol))

/-- `scheduleRoundWithPush` (cascading insertion). -/
def scheduleRoundWithPush (st : TournamentState) (roundId : String) (row col : Int) :
    TournamentState :=
  match findRoundInSeries st.series roundId with
  | none => st
  | some (targetRound, _targetSeries) =>
    let cc := st.settings.courtCount
    let matchCount := targetRound.matchCount
    let targetPositions := getRoundCellPositions row col matchCount cc
    let targetStartIndex := posToLinearIndex cc (row, col)
    let newSchedule := st.schedule.filter (fun sr => sr.roundId != roundId)
    if splitsExistingRound st.series cc newSchedule targetPositions then st
    else if !(newSchedule.any (fun sr =>
        hasCellOverlap (getOccupiedPositions st.series cc sr) targetPositions)) then
      { st with schedule := newSchedule ++ [⟨roundId, row, col⟩],
                scheduleHistory := pushHistory st.scheduleHistory st.schedule }
    else
      let roundsToShift := newSchedule.filter
        (shouldShift st.series cc targetPositions targetStartIndex)
      let roundsNotToShift := newSchedule.filter (fun sr =>
        !(shouldShift st.series cc targetPositions targetStartIndex sr))
      let sorted := roundsToShift.insertionSort (fun a b =>
        posToLinearIndex cc (b.row, b.startCol) ≤ posToLinearIndex cc (a.row, a.startCol))
      let shiftedRounds := sorted.map (shiftScheduledRound cc (matchCount : Int))
      { st with schedule := roundsNotToShift ++ ⟨roundId, row, col⟩ :: shiftedRounds,
                scheduleHistory := pushHistory st.scheduleHistory st.schedule }

/-- Result of the placement validator. -/
structure ValidationResult where
  valid : Bool
  reason : Option String
  deriving DecidableEq, Repr

/-- `canScheduleRound` (the placement validator): checked in order are
existence of the round, the non-wrapping column bound, cell occupancy on
the target row, series exclusivity on the row, and round ordering. -/
def canScheduleRound (st : TournamentState) (roundId : String) (row col : Int)
    (excludeRoundId : Option String) : ValidationResult :=
  match findRoundInSeries st.series roundId with
  | none => ⟨false, some "Tour non trouvé"⟩
  | some (targetRound, targetSeries) =>
    let cc := st.settings.courtCount
    let matchCount := targetRound.matchCount
    let endCol := col + (matchCount : Int) - 1
    if col < 0 ∨ (cc : Int) ≤ endCol then
      ⟨false, some ("Pas assez de terrains (besoin de " ++ toString matchCount
        ++ " terrains consécutifs)")⟩
    else
      let getOccupiedCols := fun (sr : ScheduledRound) =>
        match findRoundInSeries st.series sr.roundId with
        | some (r, _) => (List.range r.matchCount).map (fun i => sr.startCol + (i : Int))
        | none => [sr.startCol]
      let isExcluded := fun (sr : ScheduledRound) =>
        excludeRoundId == some sr.roundId || sr.roundId == roundId
      let anyCellOccupied := (List.range matchCount).any (fun i =>
        let c := col + (i : Int)
        st.schedule.any (fun sr =>
          !(isExcluded sr) && sr.row == row && (getOccupiedCols sr).contains c))
      if anyCellOccupied then ⟨false, some "Un ou plusieurs terrains déjà occupés"⟩
      else
        let seriesRoundIds := targetSeries.rounds.map (fun r => r.id)
        let sameSeriesInRow := st.schedule.any (fun sr =>
          sr.row == row && seriesRoundIds.contains sr.roundId && !(isExcluded sr))
        if sameSeriesInRow then
          ⟨false, some ("La série " ++ targetSeries.shortName
            ++ " a déjà un tour sur cette ligne")⟩
        else
          let orderingViolation := st.schedule.findSome? (fun sr =>
            if isExcluded sr then none
            else
              match targetSeries.rounds.find? (fun r => r.id == sr.roundId) with
              | none => none
              | some scheduledRound =>
                let srn := scheduledRound.roundNumber
                let trn := targetRound.roundNumber
                if srn < trn ∧ row < sr.row then
                  some ("Le tour " ++ toString srn ++ " doit être avant le tour "
                    ++ toString trn)
                else if trn < srn ∧ sr.row < row then
                  some ("Le tour " ++ toString trn ++ " doit être avant le tour "
                    ++ toString srn)
                else none)
          match orderingViolation with
          | some reason => ⟨false, some reason⟩
          | none => ⟨true, none⟩

/-- `scheduleRoundNext` (append placement): find the first free footprint
in the six rows from the maximal occupied row, falling back to
`(maxRow + 1, 0)`, and delegate to `scheduleRound`. -/
def scheduleRoundNext (st : TournamentState) (roundId : String) : TournamentState :=
  match findRoundInSeries st.series roundId with
  | none => st
  | some (targetRound, _) =>
    let cc := st.settings.courtCount
    let matchCount := targetRound.matchCount
    let target : Int × Int :=
      if st.schedule.isEmpty then (0, 0)
      else
        let allRows := st.schedule.flatMap (fun sr =>
          match findRoundInSeries st.series sr.roundId with
          | some (r, _) =>
            (getRoundCellPositions sr.row sr.startCol r.matchCount cc).map Prod.fst
          | none => [sr.row])
        -- `Math.max(...allRows)`; `allRows` is nonempty because the schedule is
        let maxRow := (allRows.max?).getD 0
        let arePositionsFree := fun (startRow startCol : Int) =>
          let testPositions := getRoundCellPositions startRow startCol matchCount cc
          !(st.schedule.any (fun sr =>
            match findRoundInSeries st.series sr.roundId with
            | some (r, _) =>
              hasCellOverlap testPositions
                (getRoundCellPositions sr.row sr.startCol r.matchCount cc)
            | none => false))
        let found := (List.range 6).findSome? (fun (dr : Nat) =>
          (List.range cc).findSome? (fun (c : Nat) =>
            let r : Int := maxRow + (dr : Int)
            let colInt : Int := (c : Int)
            if arePositionsFree r colInt then some (r, colInt) else none))
        match found with
        | some rc => rc
        | none => (maxRow + 1, 0)
    scheduleRound st roundId target.1 target.2

/-! ## Auto-packer (`autoSchedule`) -/

/-- Strict lexicographic comparison of character lists by code point. -/
def charListLt : List Char → List Char → Bool
  | [], [] => false
  | [], _ :: _ => true
  | _ :: _, [] => false
  | a :: as, b :: bs =>
    if a.toNat < b.toNat then true
    else if b.toNat < a.toNat then false
    else charListLt as bs

/-- Strict lexicographic comparison of strings by code point; stands in
for the ordering induced by `localeCompare` in the source's sort
comparator. -/
def strLt (a b : String) : Bool := charListLt a.data b.data

/-- Sorting order of `autoSchedule`: by series name (the source calls
`localeCompare`, modelled as lexicographic comparison), then by
`roundNumber`.  The source sorts with a stable `Array.sort`;
`List.insertionSort` with this total preorder is the same stable sort. -/
def autoLE (a b : Round × Series) : Prop :=
  strLt a.2.name b.2.name = true ∨
    (strLt b.2.name a.2.name = false ∧ a.1.roundNumber ≤ b.1.roundNumber)

instance : DecidableRel autoLE := fun a b => by
  unfold autoLE; infer_instance

/-- Working state of the auto-packer's placement loop: the schedule under
construction, the `rowSeriesMap` (`row -> set of series ids`, modelled as
its membership function) and `seriesMinRow` (`series id -> min row`,
modelled as a total function whose unset entries are `0`, matching
`seriesMinRow.get(s.id) || 0`). -/
structure AutoState where
  newSchedule : List ScheduledRound
  rowSeriesMap : Int → String → Bool
  seriesMinRow : String → Int

/-- `arePositionsAvailable` of `autoSchedule`: the candidate footprint
meets no footprint of the schedule under construction (spans resolved by
`findRoundInSeries`; dangling ids block nothing). -/
def arePositionsAvailable (series : List Series) (courtCount : Nat)
    (newSchedule : List ScheduledRound) (startRow startCol : Int) (count : Nat) : Bool :=
  let testPositions := getRoundCellPositions startRow startCol count courtCount
  !(newSchedule.any (fun sr =>
    match findRoundInSeries series sr.roundId with
    | some (r, _) =>
      hasCellOverlap testPositions
        (getRoundCellPositions sr.row sr.startCol r.matchCount courtCount)
    | none => false))

/-- The column loop of `autoSchedule` for one candidate row: try the
columns `0 .. courtCount - 1` in order; a column is accepted when the
footprint is available and none of its rows already carries the series. -/
def autoScanRow (series : List Series) (courtCount : Nat) (a : AutoState)
    (seriesId : String) (count : Nat) (row : Int) : Option (Int × Int) :=
  (List.range courtCount).findSome? (fun (c : Nat) =>
    let col : Int := (c : Int)
    if arePositionsAvailable series courtCount a.newSchedule row col count then
      let positions := getRoundCellPositions row col count courtCount
      if positions.any (fun p => a.rowSeriesMap p.1 seriesId) then none
      else some (row, col)
    else none)

/-- One round's row scan of `autoSchedule`: starting at `row`, scan the
columns of each row, moving to the next row on failure.  The source's
`while (!placed)` loop is unbounded; `fuel` bounds the number of rows
tried. -/
def autoFindSpot (series : List Series) (courtCount : Nat) (a : AutoState)
    (seriesId : String) (count : Nat) : Nat → Int → Option (Int × Int)
  | 0, _ => none
  | fuel + 1, row =>
    match autoScanRow series courtCount a seriesId count row with
    | some rc => some rc
    | none => autoFindSpot series courtCount a seriesId count fuel (row + 1)

/-- Place one round in the auto-packer: scan from the series' minimum row,
then record the placement, mark the footprint's rows for the series and
bump the series' minimum row past the footprint.

`maxRowUsed` is `Math.max(...positions.map(p => p.row))` in the source;
since the footprint's first cell lies on `row`, this equals
`foldl max row` over the footprint's rows whenever `matchCount ≥ 1`
(the configuration UI enforces `matchCount ≥ 1`; for an empty footprint
JavaScript would produce `-Infinity`, which has no `Int` counterpart). -/
def autoPlace (series : List Series) (courtCount : Nat) (fuel : Nat)
    (a : AutoState) (info : Round × Series) : Option AutoState :=
  let minRowForRound := a.seriesMinRow info.2.id
  let count := info.1.matchCount
  match autoFindSpot series courtCount a info.2.id count fuel minRowForRound with
  | none => none
  | some (row, col) =>
    let positions := getRoundCellPositions row col count courtCount
    let maxRowUsed := (positions.map Prod.fst).foldl max row
    some
      { newSchedule := a.newSchedule ++ [⟨info.1.id, row, col⟩]
        rowSeriesMap := fun r sid =>
          (positions.any (fun p => p.1 == r) && sid == info.2.id) || a.rowSeriesMap r sid
        seriesMinRow := fun sid =>
          if sid == info.2.id then maxRowUsed + 1 else a.seriesMinRow sid }

/-- The flattened round list of `autoSchedule`. -/
def allRoundInfos (series : List Series) : List (Round × Series) :=
  series.flatMap (fun s => s.rounds.map (fun r => (r, s)))

/-- `autoSchedule`, with explicit fuel bounding each round's row scan:
flatten and sort the rounds, place them greedily, then replace the
schedule and push history.  `none` means some round's row scan did not
finish within `fuel` rows. -/
def autoScheduleFuel (fuel : Nat) (st : TournamentState) : Option TournamentState :=
  let cc := st.settings.courtCount
  let sortedRounds := (allRoundInfos st.series).insertionSort autoLE
  match sortedRounds.foldlM (autoPlace st.series cc fuel)
      ⟨[], fun _ _ => false, fun _ => 0⟩ with
  | none => none
  | some a =>
    some { st with schedule := a.newSchedule,
                   scheduleHistory := pushHistory st.scheduleHistory st.schedule }

/-! ## Supporting definitions used by the verification statements -/

/-- Collected ids of every round of every series (the identity pool of
the configuration). -/
def allRoundIds (series : List Series) : List String :=
  series.flatMap (fun s => s.rounds.map (fun r => r.id))

/-- A scheduled entry resolves (through `findRoundInSeries`) to round `r`
of series `s`. -/
def ResolvesTo (series : List Series) (sr : ScheduledRound) (r : Round) (s : Series) :
    Prop :=
  findRoundInSeries series sr.roundId = some (r, s)

/-- Invariants maintained by the auto-packer's placement loop. -/
structure AutoInv (series : List Series) (cc : Nat) (a : AutoState) : Prop where
  resolves : ∀ sr ∈ a.newSchedule, ∃ r s, ResolvesTo series sr r s
  marked : ∀ sr ∈ a.newSchedule, ∀ r s, ResolvesTo series sr r s →
    ∀ p ∈ getRoundCellPositions sr.row sr.startCol r.matchCount cc,
      a.rowSeriesMap p.1 s.id = true
  belowMin : ∀ sr ∈ a.newSchedule, ∀ r s, ResolvesTo series sr r s →
    ∀ p ∈ getRoundCellPositions sr.row sr.startCol r.matchCount cc,
      p.1 < a.seriesMinRow s.id
  rowDisj : ∀ sr1 ∈ a.newSchedule, ∀ sr2 ∈ a.newSchedule, ∀ r1 r2 s,
    ResolvesTo series sr1 r1 s → ResolvesTo series sr2 r2 s → r1.id ≠ r2.id →
    ∀ p1 ∈ getRoundCellPositions sr1.row sr1.startCol r1.matchCount cc,
    ∀ p2 ∈ getRoundCellPositions sr2.row sr2.startCol r2.matchCount cc,
      p1.1 ≠ p2.1
  rowMono : ∀ sr1 ∈ a.newSchedule, ∀ sr2 ∈ a.newSchedule, ∀ r1 r2 s,
    ResolvesTo series sr1 r1 s → ResolvesTo series sr2 r2 s →
    r1.roundNumber < r2.roundNumber → sr1.row ≤ sr2.row

/-- Everything the auto-packer's working state touches lies strictly
below row `B`: no row at or beyond `B` is marked, every resolved
footprint lies below `B`, and every series' minimum row is at most `B`. -/
def AutoBounded (series : List Series) (cc : Nat) (a : AutoState) (B : Int) : Prop :=
  (∀ (rw : Int) (sid : String), B ≤ rw → a.rowSeriesMap rw sid = false) ∧
  (∀ sr ∈ a.newSchedule, ∀ r s, ResolvesTo series sr r s →
    ∀ p ∈ getRoundCellPositions sr.row sr.startCol r.matchCount cc, p.1 < B) ∧
  (∀ sid : String, a.seriesMinRow sid ≤ B)

/-- The largest span of any round in the configuration. -/
def maxMatchCount (series : List Series) : Nat :=
  (series.flatMap (fun s => s.rounds.map (fun r => r.matchCount))).foldr max 0

/-- Iterate `scheduleRound` over a list of `(roundId, row, col)` commands:
a run of consecutive mutating operations. -/
def applyScheduleOps (st : TournamentState) (ops : List (String × Int × Int)) :
    TournamentState :=
  ops.foldl (fun s op => scheduleRound s op.1 op.2.1 op.2.2) st

/-- The auto-packer's loop runs forever on this state: no amount of fuel
completes it. -/
def autoNeverCompletes (st : TournamentState) : Prop :=
  ∀ fuel, autoScheduleFuel fuel st = none

/-! ### Concrete states used by witnesses and counterexamples -/

/-- One series of two rounds (spans 2 and 2) on a 4-lane grid, with the
first round already placed at the origin. -/
def pushSeries : Series :=
  ⟨"s2", "S", "S", "c", [⟨"a", "s2", 1, 2, "T1"⟩, ⟨"b", "s2", 2, 2, "T2"⟩]⟩

def pushState : TournamentState :=
  ⟨⟨4, 35, "08:00", "18:00"⟩, [pushSeries], [⟨"a", 0, 0⟩], [], Phase.schedule⟩

/-- An 8-lane grid with a single span-4 round, for the validator bound
check. -/
def validatorState : TournamentState :=
  ⟨⟨8, 35, "08:00", "18:00"⟩, [⟨"s1", "DH1", "DH1", "c", [⟨"x", "s1", 1, 4, "T1"⟩]⟩],
    [], [], Phase.schedule⟩

/-- A 4-lane grid with one span-1 round at `(0, 1)`, for compaction. -/
def compactState : TournamentState :=
  ⟨⟨4, 35, "08:00", "18:00"⟩, [⟨"s3", "S", "S", "c", [⟨"a", "s3", 1, 1, "T1"⟩]⟩],
    [⟨"a", 0, 1⟩], [], Phase.schedule⟩

/-- Two series with a shared round id `"q"`: series `A` owns rounds
`"p"` and `"q"`, series `B` owns a different round that reuses id `"q"`. -/
def dupIdStateA : Series :=
  ⟨"sA", "A", "A", "c", [⟨"p", "sA", 1, 1, "T1"⟩, ⟨"q", "sA", 2, 1, "T2"⟩]⟩

def dupIdStateB : Series :=
  ⟨"sB", "B", "B", "c", [⟨"q", "sB", 1, 1, "T1"⟩]⟩

def dupIdState : TournamentState :=
  ⟨⟨2, 35, "08:00", "18:00"⟩, [dupIdStateA, dupIdStateB], [], [], Phase.schedule⟩

/-- Two series that each own a round with the same id `"r1"`, on a
single-lane grid. -/
def dupIdOneLaneState : TournamentState :=
  ⟨⟨1, 35, "08:00", "18:00"⟩,
    [⟨"sA", "A", "A", "c", [⟨"r1", "sA", 1, 1, "T1"⟩]⟩,
     ⟨"sB", "B", "B", "c", [⟨"r1", "sB", 1, 1, "T1"⟩]⟩],
    [], [], Phase.schedule⟩

/-- A zero-lane grid with one round to place: the auto-packer's column
loop never runs and its row scan never terminates. -/
def zeroLaneState : TournamentState :=
  ⟨⟨0, 35, "08:00", "18:00"⟩, [⟨"s1", "A", "A", "c", [⟨"r1", "s1", 1, 1, "T1"⟩]⟩],
    [], [], Phase.schedule⟩

/-- A single-lane grid with one round of span 1. -/
def oneLaneState : TournamentState :=
  ⟨⟨1, 35, "08:00", "18:00"⟩, [⟨"s1", "A", "A", "c", [⟨"r1", "s1", 1, 1, "T1"⟩]⟩],
    [], [], Phase.schedule⟩

/-- Twenty-one identical direct placements of round id `"a"`. -/
def ops21 : List (String × Int × Int) := List.replicate 21 ("a", 0, 0)

/-- A state with no series, no schedule and no history. -/
def emptyState : TournamentState :=
  ⟨⟨4, 35, "08:00", "18:00"⟩, [], [], [], Phase.schedule⟩

/-- A state whose history holds exactly one snapshot. -/
def histState : TournamentState :=
  ⟨⟨4, 35, "08:00", "18:00"⟩, [], [], [[⟨"a", 0, 0⟩]], Phase.schedule⟩

/-! ## Basic lemmas about the grid addressing and the history stack -/

theorem length_getRoundCellPositions (n : Nat) :
    ∀ (r c : Int) (cc : Nat), (getRoundCellPositions r c n cc).length = n := by
  induction n with
  | zero => intro r c cc; rfl
  | succ n ih =>
    intro r c cc
    unfold getRoundCellPositions
    by_cases h : (cc : Int) ≤ c + 1 <;> simp [h, ih]

theorem head_getRoundCellPositions {n : Nat} (hn : 0 < n) (r c : Int) (cc : Nat) :
    (getRoundCellPositions r c n cc)[0]? = some (r, c) := by
  obtain ⟨m, rfl⟩ : ∃ m, n = m + 1 := ⟨n - 1, by omega⟩
  unfold getRoundCellPositions
  by_cases h : (cc : Int) ≤ c + 1 <;> simp [h]

theorem row_bounds_getRoundCellPositions (n : Nat) :
    ∀ (r c : Int) (cc : Nat) (p : Int × Int), p ∈ getRoundCellPositions r c n cc →
      r ≤ p.1 ∧ p.1 ≤ r + n := by
  induction n with
  | zero => intro r c cc p hp; simp [getRoundCellPositions] at hp
  | succ n ih =>
    intro r c cc p hp
    unfold getRoundCellPositions at hp
    by_cases h : (cc : Int) ≤ c + 1 <;> simp only [h, if_pos, if_neg, List.mem_cons,
      not_false_iff, if_true, if_false] at hp <;>
      rcases hp with rfl | hp
    · constructor <;> omega
    · have := ih (r + 1) 0 cc p hp; constructor <;> omega
    · constructor <;> omega
    · have := ih r (c + 1) cc p hp; constructor <;> omega

theorem step_getRoundCellPositions (n : Nat) :
    ∀ (r c : Int) (cc : Nat) (i : Nat) (p : Int × Int),
      (getRoundCellPositions r c n cc)[i]? = some p → i + 1 < n →
      (getRoundCellPositions r c n cc)[i + 1]? =
        some (if (cc : Int) ≤ p.2 + 1 then (p.1 + 1, 0) else (p.1, p.2 + 1)) := by
  induction n with
  | zero => intro r c cc i p hp hi; omega
  | succ n ih =>
    intro r c cc i p hp hi
    unfold getRoundCellPositions at hp ⊢
    by_cases h : (cc : Int) ≤ c + 1 <;> simp only [h, if_true, if_false] at hp ⊢
    · match i with
      | 0 =>
        simp only [List.getElem?_cons_zero, Option.some.injEq] at hp
        subst hp
        simp only [List.getElem?_cons_succ]
        rw [head_getRoundCellPositions (by omega), if_pos h]
      | i + 1 =>
        simp only [List.getElem?_cons_succ] at hp ⊢
        exact ih (r + 1) 0 cc i p hp (by omega)
    · match i with
      | 0 =>
        simp only [List.getElem?_cons_zero, Option.some.injEq] at hp
        subst hp
        simp only [List.getElem?_cons_succ]
        rw [head_getRoundCellPositions (by omega), if_neg h]
      | i + 1 =>
        simp only [List.getElem?_cons_succ] at hp ⊢
        exact ih r (c + 1) cc i p hp (by omega)

/-- If the footprint starts inside the lane range but its span crosses the
lane count, the cell `(row + 1, 0)` — column 0 of the following row — is
part of the footprint. -/
theorem wrap_mem_getRoundCellPositions (n : Nat) :
    ∀ (r c : Int) (cc : Nat), 0 ≤ c → c < (cc : Int) → (cc : Int) < c + n →
      (r + 1, (0 : Int)) ∈ getRoundCellPositions r c n cc := by
  induction n with
  | zero => intro r c cc h0 h1 h2; omega
  | succ n ih =>
    intro r c cc h0 h1 h2
    unfold getRoundCellPositions
    by_cases h : (cc : Int) ≤ c + 1
    · simp only [h, if_true, List.mem_cons]
      right
      have hn : 0 < n := by omega
      have := head_getRoundCellPositions hn (r + 1) 0 cc
      exact List.getElem?_mem this
    · simp only [h, if_false, List.mem_cons]
      right
      exact ih r (c + 1) cc (by omega) (by omega) (by push_cast at h2 ⊢; omega)

theorem pushHistory_eq (h : List (List ScheduledRound)) (s : List ScheduledRound) :
    pushHistory h s = h.drop (h.length + 1 - 20) ++ [s] := by
  unfold pushHistory
  simp only [List.length_append, List.length_cons, List.length_nil]
  rw [List.drop_append_of_le_length (by omega)]

theorem pushHistory_getLast (h : List (List ScheduledRound)) (s : List ScheduledRound) :
    (pushHistory h s).getLast? = some s := by
  rw [pushHistory_eq]; exact List.getLast?_concat _

theorem pushHistory_dropLast (h : List (List ScheduledRound)) (s : List ScheduledRound) :
    (pushHistory h s).dropLast = h.drop (h.length + 1 - 20) := by
  rw [pushHistory_eq]; exact List.dropLast_concat

theorem pushHistory_length (h : List (List ScheduledRound)) (s : List ScheduledRound) :
    (pushHistory h s).length = min (h.length + 1) 20 := by
  rw [pushHistory_eq]
  simp only [List.length_append, List.length_drop, List.length_cons, List.length_nil]
  omega

/-- Recomposition of `Math.floor(i / cc)` and the JavaScript remainder
`i % cc` for a nonnegative linear index: the round-trip through
`(row, col)` preserves the index. -/
theorem linear_recompose (cc : Nat) {i : Int} (hi : 0 ≤ i) :
    posToLinearIndex cc (indexToRow cc i, indexToCol cc i) = i := by
  unfold posToLinearIndex indexToRow indexToCol
  rcases Nat.eq_zero_or_pos cc with hcc | hcc
  · subst hcc
    simp [Int.fdiv]
  · have hcc' : (0 : Int) ≤ (cc : Int) := by positivity
    rw [Int.fdiv_eq_ediv _ hcc', Int.tmod_eq_emod hi hcc']
    exact Int.ediv_add_emod' i (cc : Int)

/-! ## The sort comparator of the auto-packer is a total preorder -/

theorem charListLt_irrefl (l : List Char) : charListLt l l = false := by
  induction l with
  | nil => rfl
  | cons a as ih => simp [charListLt, ih]

theorem charListLt_cons_iff {a b : Char} {as bs : List Char} :
    charListLt (a :: as) (b :: bs) = true ↔
      a.toNat < b.toNat ∨ (a.toNat = b.toNat ∧ charListLt as bs = true) := by
  by_cases h1 : a.toNat < b.toNat <;> by_cases h2 : b.toNat < a.toNat <;>
    simp [charListLt, h1, h2] <;> omega

theorem charListLt_trans :
    ∀ {a b c : List Char}, charListLt a b = true → charListLt b c = true →
      charListLt a c = true
  | [], _ :: _, [], _, h2 => by simp [charListLt] at h2
  | [], _ :: _, _ :: _, _, _ => rfl
  | a :: as, b :: bs, c :: cs, h1, h2 => by
    rw [charListLt_cons_iff] at h1 h2 ⊢
    rcases h1 with h1 | ⟨h1e, h1r⟩ <;> rcases h2 with h2 | ⟨h2e, h2r⟩
    · exact Or.inl (by omega)
    · exact Or.inl (by omega)
    · exact Or.inl (by omega)
    · exact Or.inr ⟨by omega, charListLt_trans h1r h2r⟩

theorem charListLt_eq_of_both_false :
    ∀ {a b : List Char}, charListLt a b = false → charListLt b a = false → a = b
  | [], [], _, _ => rfl
  | [], _ :: _, h1, _ => by simp [charListLt] at h1
  | _ :: _, [], _, h2 => by simp [charListLt] at h2
  | a :: as, b :: bs, h1, h2 => by
    rw [Bool.eq_false_iff, Ne, charListLt_cons_iff] at h1 h2
    push_neg at h1 h2
    have he : a.toNat = b.toNat := by omega
    have h1r := h1.2 he
    have h2r := h2.2 he.symm
    have ha : a = b := Char.ext (UInt32.toNat.inj he)
    have hrest : as = bs :=
      charListLt_eq_of_both_false (Bool.eq_false_iff.mpr h1r) (Bool.eq_false_iff.mpr h2r)
    rw [ha, hrest]

/-- Non-strictness is transitive: if `a` is not below `b` and `b` is not
below `c` then `a` is not below `c` (stated contrapositively on the
strict comparison). -/
theorem charListLt_false_trans {a b c : List Char} (h1 : charListLt b a = false)
    (h2 : charListLt c b = false) : charListLt c a = false := by
  cases h : charListLt c a with
  | false => rfl
  | true =>
    exfalso
    cases hab : charListLt a b with
    | false =>
      have he := charListLt_eq_of_both_false hab h1
      rw [he] at h
      rw [h] at h2
      simp at h2
    | true =>
      have := charListLt_trans h hab
      rw [this] at h2
      simp at h2

instance : IsTotal (Round × Series) autoLE := by
  constructor
  intro a b
  unfold autoLE
  cases h1 : strLt a.2.name b.2.name <;> cases h2 : strLt b.2.name a.2.name <;>
    simp_all
  exact Nat.le_total _ _

instance : IsTrans (Round × Series) autoLE := by
  constructor
  intro a b c hab hbc
  unfold autoLE strLt at hab hbc ⊢
  rcases hab with hab | ⟨hba, hab⟩ <;> rcases hbc with hbc | ⟨hcb, hbc⟩
  · exact Or.inl (charListLt_trans hab hbc)
  · cases h : charListLt b.2.name.data c.2.name.data with
    | false =>
      have he := charListLt_eq_of_both_false h hcb
      exact Or.inl (he ▸ hab)
    | true => exact Or.inl (charListLt_trans hab h)
  · cases h : charListLt a.2.name.data b.2.name.data with
    | false =>
      have he := charListLt_eq_of_both_false h hba
      exact Or.inl (he ▸ hbc)
    | true => exact Or.inl (charListLt_trans h hbc)
  · exact Or.inr ⟨charListLt_false_trans hba hcb, le_trans hab hbc⟩

/-! ## Round lookup -/

theorem findRoundInSeries_mem {series : List Series} {roundId : String}
    {r : Round} {s : Series} (h : findRoundInSeries series roundId = some (r, s)) :
    s ∈ series ∧ r ∈ s.rounds ∧ r.id = roundId := by
  induction series with
  | nil => simp [findRoundInSeries] at h
  | cons s' rest ih =>
    unfold findRoundInSeries at h
    rcases hf : s'.rounds.find? (fun x => x.id == roundId) with _ | r'
    · rw [hf] at h
      have := ih h
      exact ⟨List.mem_cons_of_mem _ this.1, this.2.1, this.2.2⟩
    · rw [hf] at h
      simp only [Option.some.injEq, Prod.mk.injEq] at h
      obtain ⟨rfl, rfl⟩ := h
      refine ⟨List.mem_cons_self _ _, List.mem_of_find?_eq_some hf, ?_⟩
      have := List.find?_some hf
      simpa using this

theorem find?_eq_of_nodup_ids {l : List Round} {r : Round}
    (hnd : (l.map (fun x => x.id)).Nodup) (hr : r ∈ l) :
    l.find? (fun x => x.id == r.id) = some r := by
  induction l with
  | nil => simp at hr
  | cons b bs ih =>
    simp only [List.map_cons, List.nodup_cons] at hnd
    rcases List.mem_cons.mp hr with rfl | hr'
    · simp [List.find?]
    · have hne : (b.id == r.id) = false := by
        simp only [beq_eq_false_iff_ne, Ne]
        intro he
        exact hnd.1 (he ▸ List.mem_map_of_mem (fun x => x.id) hr')
      rw [List.find?_cons, hne]
      exact ih hnd.2 hr'

/-- With globally distinct round ids, looking up a round's id resolves to
that round and its own series. -/
theorem findRoundInSeries_eq_of_nodup {series : List Series}
    (hids : (allRoundIds series).Nodup) {s : Series} {r : Round}
    (hs : s ∈ series) (hr : r ∈ s.rounds) :
    findRoundInSeries series r.id = some (r, s) := by
  induction series with
  | nil => simp at hs
  | cons s' rest ih =>
    unfold allRoundIds at hids
    simp only [List.flatMap_cons, List.nodup_append] at hids
    rcases List.mem_cons.mp hs with rfl | hs'
    · unfold findRoundInSeries
      rw [find?_eq_of_nodup_ids hids.1 hr]
    · unfold findRoundInSeries
      have hnone : s'.rounds.find? (fun x => x.id == r.id) = none := by
        rw [List.find?_eq_none]
        intro x hx
        simp only [beq_iff_eq]
        intro he
        have hxmem : x.id ∈ s'.rounds.map (fun y => y.id) :=
          List.mem_map_of_mem (fun y => y.id) hx
        have hrmem : r.id ∈ rest.flatMap (fun t => t.rounds.map (fun y => y.id)) := by
          apply List.mem_flatMap_of_mem hs'
          exact List.mem_map_of_mem (fun y => y.id) hr
        exact hids.2.2 hxmem (by rw [he]; exact hrmem)
      rw [hnone]
      exact ih (by unfold allRoundIds; exact hids.2.1) hs'

theorem mem_allRoundInfos {series : List Series} {e : Round × Series} :
    e ∈ allRoundInfos series ↔ e.2 ∈ series ∧ e.1 ∈ e.2.rounds := by
  unfold allRoundInfos
  constructor
  · intro h
    obtain ⟨s, hs, hmem⟩ := List.mem_flatMap.mp h
    obtain ⟨r, hr, he⟩ := List.mem_map.mp hmem
    cases he
    exact ⟨hs, hr⟩
  · rintro ⟨hs, hr⟩
    exact List.mem_flatMap_of_mem hs (List.mem_map_of_mem _ hr)

/-! ## `foldl max` facts -/

theorem le_foldl_max (l : List Int) : ∀ b : Int, b ≤ l.foldl max b := by
  induction l with
  | nil => intro b; exact le_refl b
  | cons x xs ih =>
    intro b
    calc b ≤ max b x := le_max_left _ _
    _ ≤ xs.foldl max (max b x) := ih _

theorem mem_le_foldl_max (l : List Int) : ∀ (b x : Int), x ∈ l → x ≤ l.foldl max b := by
  induction l with
  | nil => intro b x hx; simp at hx
  | cons y ys ih =>
    intro b x hx
    rcases List.mem_cons.mp hx with rfl | hx'
    · calc x ≤ max b x := le_max_right _ _
      _ ≤ ys.foldl max (max b x) := le_foldl_max _ _
    · exact ih _ x hx'

/-! ## Claim C8: footprint walk -/

/-- C8: `footprint` (`getRoundCellPositions`) walks `span` cells from
`(startRow, startCol)`, advancing the column by one each step and
wrapping to `(row + 1, 0)` when the column reaches the lane count; in
particular `footprint(0, 6, 4, 8) = [(0,6), (0,7), (1,0), (1,1)]`. -/
theorem c8_footprint_walk :
    getRoundCellPositions 0 6 4 8 = [(0, 6), (0, 7), (1, 0), (1, 1)] ∧
    (∀ (r c : Int) (n cc : Nat), (getRoundCellPositions r c n cc).length = n) ∧
    (∀ (r c : Int) (n cc : Nat), 0 < n →
      (getRoundCellPositions r c n cc)[0]? = some (r, c)) ∧
    (∀ (r c : Int) (n cc : Nat) (i : Nat) (p : Int × Int),
      (getRoundCellPositions r c n cc)[i]? = some p → i + 1 < n →
      (getRoundCellPositions r c n cc)[i + 1]? =
        some (if (cc : Int) ≤ p.2 + 1 then (p.1 + 1, 0) else (p.1, p.2 + 1))) := by
  refine ⟨by decide, fun r c n cc => length_getRoundCellPositions n r c cc,
    fun r c n cc hn => head_getRoundCellPositions hn r c cc,
    fun r c n cc i p hp hi => step_getRoundCellPositions n r c cc i p hp hi⟩

theorem c8_footprint_walk_witness :
    0 < 4 ∧ (getRoundCellPositions 0 6 4 8)[0]? = some (0, 6) ∧
    (getRoundCellPositions 0 6 4 8)[2]? = some (1, 0) := by
  refine ⟨by decide, c8_footprint_walk.2.2.1 0 6 4 8 (by decide), ?_⟩
  have h := c8_footprint_walk.2.2.2 0 6 4 8 1 (0, 7) (by decide) (by decide)
  simpa using h

/-! ## Claim C3: validator forbids wrapping that the footprint performs -/

/-- C3: for a round of span `s` and a target column `c` with `c < 0` or
`c + s - 1 ≥ laneCount`, the validator (`canScheduleRound`) answers
`{valid := false}` with the "needs `s` consecutive lanes" reason — it
never wraps the span — while `footprint` for the same arguments still
yields `s` cells, wrapping onto column 0 of the following row whenever
the in-range start column plus the span crosses the lane count. -/
theorem c3_validator_never_wraps (st : TournamentState) (roundId : String)
    (row col : Int) (ex : Option String) (r : Round) (s : Series)
    (hfind : findRoundInSeries st.series roundId = some (r, s))
    (hbound : col < 0 ∨ (st.settings.courtCount : Int) ≤ col + (r.matchCount : Int) - 1) :
    canScheduleRound st roundId row col ex =
      ⟨false, some ("Pas assez de terrains (besoin de " ++ toString r.matchCount
        ++ " terrains consécutifs)")⟩ ∧
    (getRoundCellPositions row col r.matchCount st.settings.courtCount).length =
      r.matchCount ∧
    (0 ≤ col → col < (st.settings.courtCount : Int) →
      (row + 1, (0 : Int)) ∈
        getRoundCellPositions row col r.matchCount st.settings.courtCount) := by
  refine ⟨?_, length_getRoundCellPositions _ _ _ _, ?_⟩
  · simp only [canScheduleRound, hfind]
    rw [if_pos hbound]
  · intro h0 h1
    apply wrap_mem_getRoundCellPositions _ _ _ _ h0 h1
    omega

theorem c3_validator_never_wraps_witness :
    findRoundInSeries validatorState.series "x" =
      some (⟨"x", "s1", 1, 4, "T1"⟩, ⟨"s1", "DH1", "DH1", "c", [⟨"x", "s1", 1, 4, "T1"⟩]⟩) ∧
    canScheduleRound validatorState "x" 0 6 none =
      ⟨false, some "Pas assez de terrains (besoin de 4 terrains consécutifs)"⟩ ∧
    (1, (0 : Int)) ∈ getRoundCellPositions 0 6 4 validatorState.settings.courtCount := by
  refine ⟨by decide, ?_, ?_⟩
  · have h := c3_validator_never_wraps validatorState "x" 0 6 none
      ⟨"x", "s1", 1, 4, "T1"⟩ ⟨"s1", "DH1", "DH1", "c", [⟨"x", "s1", 1, 4, "T1"⟩]⟩
      (by decide) (by decide)
    simpa using h.1
  · have h := c3_validator_never_wraps validatorState "x" 0 6 none
      ⟨"x", "s1", 1, 4, "T1"⟩ ⟨"s1", "DH1", "DH1", "c", [⟨"x", "s1", 1, 4, "T1"⟩]⟩
      (by decide) (by decide)
    have := h.2.2 (by decide) (by decide)
    simpa using this

/-! ## Claim C1: cascading insertion rejects splits with a full no-op -/

/-- C1: if some already-scheduled round other than the one being placed
has a footprint whose intersection with the target footprint is strictly
between zero cells and that round's full footprint size, then
`placeWithPush` (`scheduleRoundWithPush`) is a no-op: the resulting state
— schedule and history included — is identical to the input state. -/
theorem c1_reject_is_noop (st : TournamentState) (roundId : String) (row col : Int)
    (r : Round) (s : Series)
    (hfind : findRoundInSeries st.series roundId = some (r, s))
    (hsplit : ∃ sr ∈ st.schedule, sr.roundId ≠ roundId ∧
      0 < overlapCellCount (getOccupiedPositions st.series st.settings.courtCount sr)
          (getRoundCellPositions row col r.matchCount st.settings.courtCount) ∧
      overlapCellCount (getOccupiedPositions st.series st.settings.courtCount sr)
          (getRoundCellPositions row col r.matchCount st.settings.courtCount) <
        (getOccupiedPositions st.series st.settings.courtCount sr).length) :
    scheduleRoundWithPush st roundId row col = st := by
  obtain ⟨sr, hmem, hne, hlo, hhi⟩ := hsplit
  have hsp : splitsExistingRound st.series st.settings.courtCount
      (st.schedule.filter (fun x => x.roundId != roundId))
      (getRoundCellPositions row col r.matchCount st.settings.courtCount) = true := by
    unfold splitsExistingRound
    rw [List.any_eq_true]
    refine ⟨sr, List.mem_filter.mpr ⟨hmem, by simpa [bne_iff_ne]⟩, ?_⟩
    simp only [Bool.and_eq_true, decide_eq_true_eq]
    exact ⟨hlo, hhi⟩
  simp only [scheduleRoundWithPush, hfind, hsp, if_true]

theorem c1_reject_is_noop_witness :
    findRoundInSeries pushState.series "b" =
      some (⟨"b", "s2", 2, 2, "T2"⟩, pushSeries) ∧
    scheduleRoundWithPush pushState "b" 0 1 = pushState := by
  refine ⟨by decide, ?_⟩
  apply c1_reject_is_noop pushState "b" 0 1 ⟨"b", "s2", 2, 2, "T2"⟩ pushSeries (by decide)
  exact ⟨⟨"a", 0, 0⟩, by decide, by decide, by decide, by decide⟩

/-! ## Claim C10: move/unschedule of an absent round still push history -/

/-- C10: for a `roundId` with no entry in the schedule,
`moveScheduledRound` and `unscheduleRound` leave the schedule unchanged
yet still push the current schedule onto the (20-capped) history, so a
subsequent `undoSchedule` consumes one history entry without changing the
schedule. -/
theorem c10_absent_round_pushes_history (st : TournamentState) (roundId : String)
    (newRow newCol : Int) (habsent : ∀ sr ∈ st.schedule, sr.roundId ≠ roundId) :
    moveScheduledRound st roundId newRow newCol =
      { st with scheduleHistory := pushHistory st.scheduleHistory st.schedule } ∧
    unscheduleRound st roundId =
      { st with scheduleHistory := pushHistory st.scheduleHistory st.schedule } ∧
    (undoSchedule (moveScheduledRound st roundId newRow newCol)).schedule = st.schedule ∧
    (undoSchedule (unscheduleRound st roundId)).schedule = st.schedule ∧
    (undoSchedule (moveScheduledRound st roundId newRow newCol)).scheduleHistory.length =
      min (st.scheduleHistory.length + 1) 20 - 1 ∧
    (undoSchedule (unscheduleRound st roundId)).scheduleHistory.length =
      min (st.scheduleHistory.length + 1) 20 - 1 := by
  have hmap : st.schedule.map (fun sr =>
      if sr.roundId == roundId then { sr with row := newRow, startCol := newCol }
      else sr) = st.schedule := by
    rw [show st.schedule = st.schedule.map id from (List.map_id _).symm]
    rw [List.map_map]
    apply List.map_congr_left
    intro sr hmem
    simp [habsent sr (by simpa using hmem)]
  have hfil : st.schedule.filter (fun sr => sr.roundId != roundId) = st.schedule := by
    rw [List.filter_eq_self]
    intro sr hmem
    simpa [bne_iff_ne] using habsent sr hmem
  have hmove : moveScheduledRound st roundId newRow newCol =
      { st with scheduleHistory := pushHistory st.scheduleHistory st.schedule } := by
    simp only [moveScheduledRound, hmap]
  have huns : unscheduleRound st roundId =
      { st with scheduleHistory := pushHistory st.scheduleHistory st.schedule } := by
    simp only [unscheduleRound, hfil]
  have hundo : (undoSchedule
      { st with scheduleHistory := pushHistory st.scheduleHistory st.schedule }).schedule =
        st.schedule ∧
      (undoSchedule
      { st with scheduleHistory := pushHistory st.scheduleHistory st.schedule
        }).scheduleHistory.length = min (st.scheduleHistory.length + 1) 20 - 1 := by
    unfold undoSchedule
    simp only [pushHistory_getLast]
    constructor
    · trivial
    · simp only [List.length_dropLast, pushHistory_length]
  exact ⟨hmove, huns, by rw [hmove]; exact hundo.1, by rw [huns]; exact hundo.1,
    by rw [hmove]; exact hundo.2, by rw [huns]; exact hundo.2⟩

theorem c10_absent_round_pushes_history_witness :
    (∀ sr ∈ compactState.schedule, sr.roundId ≠ "zz") ∧
    moveScheduledRound compactState "zz" 3 3 =
      { compactState with
          scheduleHistory := pushHistory compactState.scheduleHistory compactState.schedule } ∧
    (undoSchedule (unscheduleRound compactState "zz")).schedule = compactState.schedule := by
  refine ⟨by decide, ?_, ?_⟩
  · exact (c10_absent_round_pushes_history compactState "zz" 3 3 (by decide)).1
  · exact (c10_absent_round_pushes_history compactState "zz" 3 3 (by decide)).2.2.2.1

/-! ## History evolution under repeated direct placements -/

theorem applyScheduleOps_nil (st : TournamentState) : applyScheduleOps st [] = st := rfl

theorem applyScheduleOps_cons (st : TournamentState) (op : String × Int × Int)
    (ops : List (String × Int × Int)) :
    applyScheduleOps st (op :: ops) =
      applyScheduleOps (scheduleRound st op.1 op.2.1 op.2.2) ops := rfl

theorem scheduleRound_history (st : TournamentState) (roundId : String) (row col : Int) :
    (scheduleRound st roundId row col).scheduleHistory =
      pushHistory st.scheduleHistory st.schedule := rfl

/-- After a run of direct placements, the history is the last-20 window of
the original history followed by the per-step pre-mutation snapshots. -/
theorem applyScheduleOps_history (ops : List (String × Int × Int)) :
    ∀ st : TournamentState, st.scheduleHistory.length ≤ 20 →
    (applyScheduleOps st ops).scheduleHistory =
      (st.scheduleHistory ++
        (List.range ops.length).map
          (fun i => (applyScheduleOps st (ops.take i)).schedule)).drop
        (st.scheduleHistory.length + ops.length - 20) := by
  induction ops with
  | nil =>
    intro st hle
    rw [applyScheduleOps_nil]
    simp only [List.length_nil, List.range_zero, List.map_nil, List.append_nil]
    rw [show st.scheduleHistory.length + 0 - 20 = 0 by omega, List.drop_zero]
  | cons op ops ih =>
    intro st hle
    rw [applyScheduleOps_cons]
    have h1 : (scheduleRound st op.1 op.2.1 op.2.2).scheduleHistory.length ≤ 20 := by
      rw [scheduleRound_history, pushHistory_length]; omega
    rw [ih _ h1]
    have hrange : (List.range (op :: ops).length).map
        (fun i => (applyScheduleOps st ((op :: ops).take i)).schedule) =
        st.schedule :: (List.range ops.length).map
          (fun i => (applyScheduleOps (scheduleRound st op.1 op.2.1 op.2.2)
            (ops.take i)).schedule) := by
      rw [List.length_cons, List.range_succ_eq_map, List.map_cons, List.map_map]
      congr 1
    rw [hrange]
    have hlen2 : (scheduleRound st op.1 op.2.1 op.2.2).scheduleHistory.length =
        min (st.scheduleHistory.length + 1) 20 := by
      rw [scheduleRound_history, pushHistory_length]
    rw [hlen2, scheduleRound_history, pushHistory_eq]
    have e1 : (st.scheduleHistory.drop (st.scheduleHistory.length + 1 - 20) ++
          [st.schedule]) ++
        (List.range ops.length).map
          (fun i => (applyScheduleOps (scheduleRound st op.1 op.2.1 op.2.2)
            (ops.take i)).schedule) =
        (st.scheduleHistory ++ st.schedule ::
          (List.range ops.length).map
            (fun i => (applyScheduleOps (scheduleRound st op.1 op.2.1 op.2.2)
              (ops.take i)).schedule)).drop (st.scheduleHistory.length + 1 - 20) := by
      rw [List.append_assoc, List.singleton_append]
      exact (List.drop_append_of_le_length (by omega)).symm
    rw [e1, List.drop_drop]
    congr 1
    simp only [List.length_cons]
    omega

theorem undoSchedule_of_getLast_none {st : TournamentState}
    (h : st.scheduleHistory.getLast? = none) : undoSchedule st = st := by
  unfold undoSchedule; rw [h]

theorem undoSchedule_of_getLast_some {st : TournamentState} {s : List ScheduledRound}
    (h : st.scheduleHistory.getLast? = some s) :
    undoSchedule st =
      { st with schedule := s, scheduleHistory := st.scheduleHistory.dropLast } := by
  unfold undoSchedule; rw [h]

/-- Any number of undos yields either the current schedule or a schedule
stored in the history, and never grows the history. -/
theorem undo_reachable (k : Nat) : ∀ st : TournamentState,
    ((undoSchedule^[k] st).schedule = st.schedule ∨
      (undoSchedule^[k] st).schedule ∈ st.scheduleHistory) ∧
    (undoSchedule^[k] st).scheduleHistory ⊆ st.scheduleHistory := by
  induction k with
  | zero => intro st; exact ⟨Or.inl rfl, fun x hx => hx⟩
  | succ k ih =>
    intro st
    rw [Function.iterate_succ_apply']
    obtain ⟨ihs, ihh⟩ := ih st
    cases hl : (undoSchedule^[k] st).scheduleHistory.getLast? with
    | none =>
      rw [undoSchedule_of_getLast_none hl]
      exact ⟨ihs, ihh⟩
    | some s =>
      rw [undoSchedule_of_getLast_some hl]
      constructor
      · exact Or.inr (ihh (List.mem_of_mem_getLast? hl))
      · exact fun x hx => ihh ((List.dropLast_sublist _).subset hx)

/-! ## Claim C6: undo semantics and the 20-entry cap -/

/-- C6: `undoSchedule` pops the most recent history entry and restores it
verbatim as the schedule (no-op on an empty history); undo after one
direct placement restores the exact prior schedule; the history never
exceeds 20 entries, and after 21 consecutive placements whose resulting
schedules all differ from the original one, no sequence of undos can
reach the original schedule again. -/
theorem c6_undo_semantics :
    (∀ st : TournamentState, st.scheduleHistory = [] → undoSchedule st = st) ∧
    (∀ (st : TournamentState) (h : List (List ScheduledRound)) (s : List ScheduledRound),
      st.scheduleHistory = h ++ [s] →
      (undoSchedule st).schedule = s ∧ (undoSchedule st).scheduleHistory = h) ∧
    (∀ (st : TournamentState) (roundId : String) (row col : Int),
      (undoSchedule (scheduleRound st roundId row col)).schedule = st.schedule) ∧
    (∀ st : TournamentState, (pushHistory st.scheduleHistory st.schedule).length ≤ 20) ∧
    (∀ (st : TournamentState) (ops : List (String × Int × Int)), ops.length = 21 →
      (∀ i, i < 21 → (applyScheduleOps st (ops.take (i + 1))).schedule ≠ st.schedule) →
      ∀ k, (undoSchedule^[k] (applyScheduleOps st ops)).schedule ≠ st.schedule) := by
  refine ⟨?_, ?_, ?_, ?_, ?_⟩
  · intro st h
    unfold undoSchedule
    rw [h]
    rfl
  · intro st h s hh
    unfold undoSchedule
    rw [hh, List.getLast?_concat]
    exact ⟨rfl, by simp⟩
  · intro st roundId row col
    unfold undoSchedule
    rw [scheduleRound_history, pushHistory_getLast]
  · intro st
    rw [pushHistory_length]
    omega
  · intro st ops hlen hdist k hcontra
    match ops, hlen with
    | op :: rest, hlen =>
      have hrlen : rest.length = 20 := by simpa using hlen
      rw [applyScheduleOps_cons] at hcontra
      have h1 : (scheduleRound st op.1 op.2.1 op.2.2).scheduleHistory.length ≤ 20 := by
        rw [scheduleRound_history, pushHistory_length]; omega
      have hhist := applyScheduleOps_history rest (scheduleRound st op.1 op.2.1 op.2.2) h1
      rw [show (scheduleRound st op.1 op.2.1 op.2.2).scheduleHistory.length +
            rest.length - 20 = (scheduleRound st op.1 op.2.1 op.2.2).scheduleHistory.length
          by omega] at hhist
      rw [List.drop_left] at hhist
      obtain ⟨hreach, -⟩ :=
        undo_reachable k (applyScheduleOps (scheduleRound st op.1 op.2.1 op.2.2) rest)
      rcases hreach with hcur | hmem
      · rw [hcontra] at hcur
        have h20 := hdist 20 (by omega)
        apply h20
        rw [show (op :: rest).take (20 + 1) = op :: rest from by
          rw [List.take_of_length_le (by simp [hrlen])]]
        rw [applyScheduleOps_cons]
        exact hcur.symm
      · rw [hhist] at hmem
        obtain ⟨i, hi, hsnap⟩ := List.mem_map.mp hmem
        have hilt : i < 20 := by simpa [hrlen] using List.mem_range.mp hi
        apply hdist i (by omega)
        rw [show (op :: rest).take (i + 1) = op :: rest.take i from List.take_succ_cons]
        rw [applyScheduleOps_cons, ← hcontra, hsnap]

theorem c6_undo_semantics_witness :
    histState.scheduleHistory = [] ++ [[⟨"a", 0, 0⟩]] ∧
    (undoSchedule histState).schedule = [⟨"a", 0, 0⟩] ∧
    (undoSchedule (scheduleRound emptyState "a" 2 3)).schedule = emptyState.schedule ∧
    ops21.length = 21 ∧
    (∀ i, i < 21 →
      (applyScheduleOps emptyState (ops21.take (i + 1))).schedule ≠ emptyState.schedule) ∧
    (undoSchedule^[3] (applyScheduleOps emptyState ops21)).schedule ≠
      emptyState.schedule := by
  refine ⟨by decide, ?_, ?_, by decide, ?_, ?_⟩
  · exact (c6_undo_semantics.2.1 histState [] [⟨"a", 0, 0⟩] (by decide)).1
  · exact c6_undo_semantics.2.2.1 emptyState "a" 2 3
  · intro i hi
    revert i
    decide
  · exact c6_undo_semantics.2.2.2.2 emptyState ops21 (by decide) (by decide) 3

/-! ## Claim C5: compaction -/

/-- C5: `compact` (`removeEmptyCell`) on a cell occupied by some
footprint is a no-op; on an empty cell with linear index `t` it pushes
the pre-mutation schedule onto the history and produces exactly the
untouched rounds whose start index is `≤ t` together with the rounds
whose start index is `> t` shifted back by one cell (start linear index
decreased by 1). -/
theorem c5_compaction (st : TournamentState) (row col : Int) :
    ((∃ sr ∈ st.schedule,
        (row, col) ∈ getOccupiedPositions st.series st.settings.courtCount sr) →
      removeEmptyCell st row col = st) ∧
    ((¬ ∃ sr ∈ st.schedule,
        (row, col) ∈ getOccupiedPositions st.series st.settings.courtCount sr) →
      (removeEmptyCell st row col).scheduleHistory =
        pushHistory st.scheduleHistory st.schedule ∧
      List.Perm (removeEmptyCell st row col).schedule
        (st.schedule.filter (fun sr =>
            !decide (posToLinearIndex st.settings.courtCount (row, col) <
              posToLinearIndex st.settings.courtCount (sr.row, sr.startCol))) ++
          (st.schedule.filter (fun sr =>
            decide (posToLinearIndex st.settings.courtCount (row, col) <
              posToLinearIndex st.settings.courtCount (sr.row, sr.startCol)))).map
            (shiftScheduledRound st.settings.courtCount (-1))) ∧
      (∀ sr ∈ st.schedule,
        posToLinearIndex st.settings.courtCount (sr.row, sr.startCol) ≤
          posToLinearIndex st.settings.courtCount (row, col) →
        sr ∈ (removeEmptyCell st row col).schedule) ∧
      (∀ sr ∈ st.schedule,
        posToLinearIndex st.settings.courtCount (row, col) <
          posToLinearIndex st.settings.courtCount (sr.row, sr.startCol) →
        shiftScheduledRound st.settings.courtCount (-1) sr ∈
          (removeEmptyCell st row col).schedule)) ∧
    (0 ≤ posToLinearIndex st.settings.courtCount (row, col) →
      ∀ sr : ScheduledRound,
      posToLinearIndex st.settings.courtCount (row, col) <
        posToLinearIndex st.settings.courtCount (sr.row, sr.startCol) →
      posToLinearIndex st.settings.courtCount
          ((shiftScheduledRound st.settings.courtCount (-1) sr).row,
            (shiftScheduledRound st.settings.courtCount (-1) sr).startCol) =
        posToLinearIndex st.settings.courtCount (sr.row, sr.startCol) - 1) := by
  refine ⟨?_, ?_, ?_⟩
  · intro hex
    have hcell : (st.schedule.any (fun sr =>
        (getOccupiedPositions st.series st.settings.courtCount sr).any
          (fun p => p == (row, col)))) = true := by
      rw [List.any_eq_true]
      obtain ⟨sr, hm, hp⟩ := hex
      exact ⟨sr, hm, by rw [List.any_eq_true]; exact ⟨(row, col), hp, by simp⟩⟩
    simp only [removeEmptyCell, hcell, if_true]
  · intro hnex
    have hcell : (st.schedule.any (fun sr =>
        (getOccupiedPositions st.series st.settings.courtCount sr).any
          (fun p => p == (row, col)))) = false := by
      rw [Bool.eq_false_iff, Ne, List.any_eq_true]
      intro hex
      apply hnex
      obtain ⟨sr, hm, hp⟩ := hex
      rw [List.any_eq_true] at hp
      obtain ⟨p, hpm, hpe⟩ := hp
      rw [beq_iff_eq] at hpe
      exact ⟨sr, hm, hpe ▸ hpm⟩
    refine ⟨?_, ?_, ?_, ?_⟩
    · simp only [removeEmptyCell, hcell, Bool.false_eq_true, if_false]
    · simp only [removeEmptyCell, hcell, Bool.false_eq_true, if_false]
      apply List.Perm.append_left
      exact List.Perm.map _ (List.perm_insertionSort _ _)
    · intro sr hm hle
      simp only [removeEmptyCell, hcell, Bool.false_eq_true, if_false]
      apply List.mem_append_left
      rw [List.mem_filter]
      refine ⟨hm, ?_⟩
      simp only [Bool.not_eq_true', decide_eq_false_iff_not]
      omega
    · intro sr hm hlt
      simp only [removeEmptyCell, hcell, Bool.false_eq_true, if_false]
      apply List.mem_append_right
      apply List.mem_map_of_mem
      rw [List.mem_insertionSort]
      rw [List.mem_filter]
      exact ⟨hm, by simpa using hlt⟩
  · intro ht sr hlt
    unfold shiftScheduledRound
    simp only
    rw [linear_recompose st.settings.courtCount (by omega)]
    omega

theorem c5_compaction_witness :
    (¬ ∃ sr ∈ compactState.schedule,
      ((0 : Int), (0 : Int)) ∈
        getOccupiedPositions compactState.series compactState.settings.courtCount sr) ∧
    (⟨"a", 0, 0⟩ : ScheduledRound) ∈ (removeEmptyCell compactState 0 0).schedule ∧
    removeEmptyCell compactState 0 1 = compactState := by
  refine ⟨by decide, ?_, ?_⟩
  · have h := ((c5_compaction compactState 0 0).2.1 (by decide)).2.2.2
      ⟨"a", 0, 1⟩ (by decide) (by decide)
    simpa [shiftScheduledRound, posToLinearIndex, indexToRow, indexToCol] using h
  · exact (c5_compaction compactState 0 1).1 ⟨⟨"a", 0, 1⟩, by decide, by decide⟩

/-! ## Claim C2: cascading insertion shifts SHIFT rounds by the span -/

/-- C2: when `placeWithPush` does not reject (no partial footprint
overlap) and at least one existing round's footprint intersects the
target footprint, the remaining rounds are partitioned by `shouldShift`
(footprint intersection with the target, or start index at or beyond the
target's); the final schedule consists exactly of the untouched KEEP
rounds, the new placement, and every SHIFT round moved so that its start
linear index grows by the inserted round's span — converted back to
`(row, col)` by floor division and remainder — and the pre-mutation
schedule is pushed onto the history. -/
theorem c2_cascading_shift (st : TournamentState) (roundId : String) (row col : Int)
    (r : Round) (s : Series)
    (hfind : findRoundInSeries st.series roundId = some (r, s))
    (hnosplit : ∀ sr ∈ st.schedule, sr.roundId ≠ roundId →
      overlapCellCount (getOccupiedPositions st.series st.settings.courtCount sr)
          (getRoundCellPositions row col r.matchCount st.settings.courtCount) = 0 ∨
      overlapCellCount (getOccupiedPositions st.series st.settings.courtCount sr)
          (getRoundCellPositions row col r.matchCount st.settings.courtCount) =
        (getOccupiedPositions st.series st.settings.courtCount sr).length)
    (hoverlap : ∃ sr ∈ st.schedule, sr.roundId ≠ roundId ∧
      hasCellOverlap (getOccupiedPositions st.series st.settings.courtCount sr)
        (getRoundCellPositions row col r.matchCount st.settings.courtCount) = true) :
    (scheduleRoundWithPush st roundId row col).scheduleHistory =
      pushHistory st.scheduleHistory st.schedule ∧
    List.Perm (scheduleRoundWithPush st roundId row col).schedule
      ((st.schedule.filter (fun sr => sr.roundId != roundId)).filter
          (fun sr => !(shouldShift st.series st.settings.courtCount
            (getRoundCellPositions row col r.matchCount st.settings.courtCount)
            (posToLinearIndex st.settings.courtCount (row, col)) sr)) ++
        ⟨roundId, row, col⟩ ::
        ((st.schedule.filter (fun sr => sr.roundId != roundId)).filter
          (shouldShift st.series st.settings.courtCount
            (getRoundCellPositions row col r.matchCount st.settings.courtCount)
            (posToLinearIndex st.settings.courtCount (row, col)))).map
          (shiftScheduledRound st.settings.courtCount (r.matchCount : Int))) ∧
    (⟨roundId, row, col⟩ : ScheduledRound) ∈
      (scheduleRoundWithPush st roundId row col).schedule ∧
    (∀ sr ∈ st.schedule, sr.roundId ≠ roundId →
      shouldShift st.series st.settings.courtCount
        (getRoundCellPositions row col r.matchCount st.settings.courtCount)
        (posToLinearIndex st.settings.courtCount (row, col)) sr = false →
      sr ∈ (scheduleRoundWithPush st roundId row col).schedule) ∧
    (∀ sr ∈ st.schedule, sr.roundId ≠ roundId →
      shouldShift st.series st.settings.courtCount
        (getRoundCellPositions row col r.matchCount st.settings.courtCount)
        (posToLinearIndex st.settings.courtCount (row, col)) sr = true →
      shiftScheduledRound st.settings.courtCount (r.matchCount : Int) sr ∈
        (scheduleRoundWithPush st roundId row col).schedule) ∧
    (∀ sr : ScheduledRound,
      (shiftScheduledRound st.settings.courtCount (r.matchCount : Int) sr).row =
        indexToRow st.settings.courtCount
          (posToLinearIndex st.settings.courtCount (sr.row, sr.startCol) +
            (r.matchCount : Int)) ∧
      (shiftScheduledRound st.settings.courtCount (r.matchCount : Int) sr).startCol =
        indexToCol st.settings.courtCount
          (posToLinearIndex st.settings.courtCount (sr.row, sr.startCol) +
            (r.matchCount : Int)) ∧
      (0 ≤ posToLinearIndex st.settings.courtCount (sr.row, sr.startCol) →
        posToLinearIndex st.settings.courtCount
            ((shiftScheduledRound st.settings.courtCount (r.matchCount : Int) sr).row,
              (shiftScheduledRound st.settings.courtCount (r.matchCount : Int) sr).startCol) =
          posToLinearIndex st.settings.courtCount (sr.row, sr.startCol) +
            (r.matchCount : Int))) := by
  have hsp : splitsExistingRound st.series st.settings.courtCount
      (st.schedule.filter (fun x => x.roundId != roundId))
      (getRoundCellPositions row col r.matchCount st.settings.courtCount) = false := by
    unfold splitsExistingRound
    rw [Bool.eq_false_iff, Ne, List.any_eq_true]
    rintro ⟨sr, hmem, hcond⟩
    rw [List.mem_filter] at hmem
    simp only [Bool.and_eq_true, decide_eq_true_eq] at hcond
    rcases hnosplit sr hmem.1 (by simpa [bne_iff_ne] using hmem.2) with h0 | hfull
    · omega
    · omega
  have hany : ((st.schedule.filter (fun x => x.roundId != roundId)).any (fun sr =>
      hasCellOverlap (getOccupiedPositions st.series st.settings.courtCount sr)
        (getRoundCellPositions row col r.matchCount st.settings.courtCount))) = true := by
    rw [List.any_eq_true]
    obtain ⟨sr, hmem, hne, hov⟩ := hoverlap
    exact ⟨sr, List.mem_filter.mpr ⟨hmem, by simpa [bne_iff_ne]⟩, hov⟩
  have hres : scheduleRoundWithPush st roundId row col =
      { st with
          schedule :=
            (st.schedule.filter (fun x => x.roundId != roundId)).filter
              (fun sr => !(shouldShift st.series st.settings.courtCount
                (getRoundCellPositions row col r.matchCount st.settings.courtCount)
                (posToLinearIndex st.settings.courtCount (row, col)) sr)) ++
            ⟨roundId, row, col⟩ ::
            (((st.schedule.filter (fun x => x.roundId != roundId)).filter
              (shouldShift st.series st.settings.courtCount
                (getRoundCellPositions row col r.matchCount st.settings.courtCount)
                (posToLinearIndex st.settings.courtCount (row, col)))).insertionSort
              (fun a b =>
                posToLinearIndex st.settings.courtCount (b.row, b.startCol) ≤
                  posToLinearIndex st.settings.courtCount (a.row, a.startCol))).map
              (shiftScheduledRound st.settings.courtCount (r.matchCount : Int)),
          scheduleHistory := pushHistory st.scheduleHistory st.schedule } := by
    simp only [scheduleRoundWithPush, hfind, hsp, Bool.false_eq_true, if_false, hany,
      Bool.not_true, if_true]
  refine ⟨by rw [hres], ?_, ?_, ?_, ?_, ?_⟩
  · rw [hres]
    apply List.Perm.append_left
    apply List.Perm.cons
    exact List.Perm.map _ (List.perm_insertionSort _ _)
  · rw [hres]
    apply List.mem_append_right
    exact List.mem_cons_self _ _
  · intro sr hmem hne hns
    rw [hres]
    apply List.mem_append_left
    rw [List.mem_filter]
    refine ⟨List.mem_filter.mpr ⟨hmem, by simpa [bne_iff_ne]⟩, by rw [hns]; rfl⟩
  · intro sr hmem hne hs'
    rw [hres]
    apply List.mem_append_right
    apply List.mem_cons_of_mem
    apply List.mem_map_of_mem
    rw [List.mem_insertionSort, List.mem_filter]
    exact ⟨List.mem_filter.mpr ⟨hmem, by simpa [bne_iff_ne]⟩, hs'⟩
  · intro sr
    refine ⟨rfl, rfl, ?_⟩
    intro hnn
    unfold shiftScheduledRound
    simp only
    rw [linear_recompose st.settings.courtCount (by positivity)]

theorem c2_cascading_shift_witness :
    findRoundInSeries pushState.series "b" = some (⟨"b", "s2", 2, 2, "T2"⟩, pushSeries) ∧
    (⟨"b", 0, 0⟩ : ScheduledRound) ∈ (scheduleRoundWithPush pushState "b" 0 0).schedule ∧
    (⟨"a", 0, 2⟩ : ScheduledRound) ∈ (scheduleRoundWithPush pushState "b" 0 0).schedule ∧
    (scheduleRoundWithPush pushState "b" 0 0).scheduleHistory =
      pushHistory pushState.scheduleHistory pushState.schedule := by
  have h := c2_cascading_shift pushState "b" 0 0 ⟨"b", "s2", 2, 2, "T2"⟩ pushSeries
    (by decide)
    (by decide)
    ⟨⟨"a", 0, 0⟩, by decide, by decide, by decide⟩
  refine ⟨by decide, h.2.2.1, ?_, h.1⟩
  have h5 := h.2.2.2.2.1 ⟨"a", 0, 0⟩ (by decide) (by decide) (by decide)
  simpa [shiftScheduledRound, posToLinearIndex, indexToRow, indexToCol] using h5

/-! ## Round-id multiplicity under the engine operations -/

theorem scheduleRound_nodup_ids {st : TournamentState}
    (h : (st.schedule.map (fun sr => sr.roundId)).Nodup)
    (roundId : String) (row col : Int) :
    ((scheduleRound st roundId row col).schedule.map (fun sr => sr.roundId)).Nodup := by
  unfold scheduleRound
  simp only
  rw [List.map_append]
  apply List.Nodup.append
  · exact h.sublist ((List.filter_sublist _).map _)
  · simp
  · intro x hx hy
    rw [List.mem_map] at hx
    obtain ⟨sr, hsr, rfl⟩ := hx
    rw [List.mem_filter] at hsr
    simp only [List.map_cons, List.map_nil, List.mem_singleton] at hy
    rw [hy] at hsr
    simp at hsr

/-- Ids of a "KEEP ++ reordered-and-rewritten SHIFT" schedule are a
permutation of the original ids, provided the rewriting function keeps
ids and the reordered part is a permutation of the SHIFT part. -/
theorem ids_perm_of_partition (S T : List ScheduledRound) (p : ScheduledRound → Bool)
    (f : ScheduledRound → ScheduledRound) (hf : ∀ sr, (f sr).roundId = sr.roundId)
    (hT : List.Perm T (S.filter p)) :
    List.Perm ((S.filter (fun sr => !(p sr)) ++ T.map f).map (fun sr => sr.roundId))
      (S.map (fun sr => sr.roundId)) := by
  rw [List.map_append]
  have h1 : (T.map f).map (fun sr => sr.roundId) = T.map (fun sr => sr.roundId) := by
    rw [List.map_map]
    apply List.map_congr_left
    intro sr _
    exact hf sr
  rw [h1]
  have h2 : List.Perm (T.map (fun sr => sr.roundId))
      ((S.filter p).map (fun sr => sr.roundId)) := hT.map _
  refine (List.Perm.append_left _ h2).trans ?_
  refine List.perm_append_comm.trans ?_
  rw [← List.map_append]
  exact (List.filter_append_perm p S).map _

theorem autoPlace_newSchedule {series : List Series} {cc fuel : Nat} {a a1 : AutoState}
    {e : Round × Series} (hstep : autoPlace series cc fuel a e = some a1) :
    ∃ row col : Int, a1.newSchedule = a.newSchedule ++ [⟨e.1.id, row, col⟩] := by
  simp only [autoPlace] at hstep
  cases hspot : autoFindSpot series cc a e.2.id e.1.matchCount fuel (a.seriesMinRow e.2.id) with
  | none => rw [hspot] at hstep; simp at hstep
  | some rc =>
    rw [hspot] at hstep
    obtain ⟨row, col⟩ := rc
    simp only [Option.some.injEq] at hstep
    exact ⟨row, col, by rw [← hstep]⟩

theorem autoFold_ids (series : List Series) (cc fuel : Nat) :
    ∀ (rest : List (Round × Series)) (a a' : AutoState),
      rest.foldlM (autoPlace series cc fuel) a = some a' →
      a'.newSchedule.map (fun sr => sr.roundId) =
        a.newSchedule.map (fun sr => sr.roundId) ++ rest.map (fun e => e.1.id) := by
  intro rest
  induction rest with
  | nil =>
    intro a a' hfold
    simp only [List.foldlM_nil, Option.pure_def, Option.some.injEq] at hfold
    subst hfold
    simp
  | cons e rest ih =>
    intro a a' hfold
    rw [List.foldlM_cons] at hfold
    cases hstep : autoPlace series cc fuel a e with
    | none => rw [hstep] at hfold; simp at hfold
    | some a1 =>
      rw [hstep] at hfold
      simp only [Option.bind_eq_bind, Option.some_bind] at hfold
      obtain ⟨row, col, hns⟩ := autoPlace_newSchedule hstep
      rw [ih a1 a' hfold, hns]
      simp

theorem allRoundInfos_ids (series : List Series) :
    (allRoundInfos series).map (fun e => e.1.id) = allRoundIds series := by
  unfold allRoundInfos allRoundIds
  rw [List.map_flatMap]
  congr 1
  funext s
  rw [List.map_map]
  rfl

/-! ## Claim C7 (amended): at most one entry per round id -/

/-- C7 (amended): starting from a schedule with at most one entry per
`roundId`, every engine operation — direct placement, cascading
insertion, append placement, move, unschedule, compaction, clear —
preserves that uniqueness; `autoSchedule` preserves it as well provided
the round ids of the series configuration are pairwise distinct (it
rebuilds the schedule from the configuration, one entry per configured
round). -/
theorem c7_unique_per_round (st : TournamentState)
    (h : (st.schedule.map (fun sr => sr.roundId)).Nodup)
    (roundId : String) (row col : Int) (fuel : Nat) :
    ((scheduleRound st roundId row col).schedule.map (fun sr => sr.roundId)).Nodup ∧
    ((scheduleRoundWithPush st roundId row col).schedule.map
      (fun sr => sr.roundId)).Nodup ∧
    ((scheduleRoundNext st roundId).schedule.map (fun sr => sr.roundId)).Nodup ∧
    ((moveScheduledRound st roundId row col).schedule.map (fun sr => sr.roundId)).Nodup ∧
    ((unscheduleRound st roundId).schedule.map (fun sr => sr.roundId)).Nodup ∧
    ((removeEmptyCell st row col).schedule.map (fun sr => sr.roundId)).Nodup ∧
    ((clearSchedule st).schedule.map (fun sr => sr.roundId)).Nodup ∧
    ((allRoundIds st.series).Nodup → ∀ res, autoScheduleFuel fuel st = some res →
      (res.schedule.map (fun sr => sr.roundId)).Nodup) := by
  have hfilter : ∀ rid : String,
      (((st.schedule.filter (fun sr => sr.roundId != rid)).map
        (fun sr => sr.roundId)).Nodup) ∧
      ∀ x ∈ (st.schedule.filter (fun sr => sr.roundId != rid)).map
          (fun sr => sr.roundId), x ≠ rid := by
    intro rid
    constructor
    · exact h.sublist ((List.filter_sublist _).map _)
    · intro x hx
      rw [List.mem_map] at hx
      obtain ⟨sr, hsr, rfl⟩ := hx
      rw [List.mem_filter] at hsr
      simpa [bne_iff_ne] using hsr.2
  refine ⟨scheduleRound_nodup_ids h roundId row col, ?_, ?_,
    ?_, ?_, ?_, by simp [clearSchedule], ?_⟩
  · -- scheduleRoundWithPush
    rcases hfind : findRoundInSeries st.series roundId with _ | ⟨tr, ts⟩
    · simpa only [scheduleRoundWithPush, hfind] using h
    · cases hsp : splitsExistingRound st.series st.settings.courtCount
        (st.schedule.filter (fun sr => sr.roundId != roundId))
        (getRoundCellPositions row col tr.matchCount st.settings.courtCount) with
      | true => simpa only [scheduleRoundWithPush, hfind, hsp, if_true] using h
      | false =>
        cases hany : ((st.schedule.filter (fun sr => sr.roundId != roundId)).any
            (fun sr => hasCellOverlap
              (getOccupiedPositions st.series st.settings.courtCount sr)
              (getRoundCellPositions row col tr.matchCount st.settings.courtCount))) with
        | false =>
          simp only [scheduleRoundWithPush, hfind, hsp, Bool.false_eq_true, if_false,
            hany, Bool.not_false, if_true]
          rw [List.map_append]
          apply List.Nodup.append
          · exact (hfilter roundId).1
          · simp
          · intro x hx hy
            simp only [List.map_cons, List.map_nil, List.mem_singleton] at hy
            exact (hfilter roundId).2 x hx hy
        | true =>
          simp only [scheduleRoundWithPush, hfind, hsp, Bool.false_eq_true, if_false,
            hany, Bool.not_true, if_false]
          have hperm := ids_perm_of_partition
            (st.schedule.filter (fun sr => sr.roundId != roundId))
            (((st.schedule.filter (fun sr => sr.roundId != roundId)).filter
              (shouldShift st.series st.settings.courtCount
                (getRoundCellPositions row col tr.matchCount st.settings.courtCount)
                (posToLinearIndex st.settings.courtCount (row, col)))).insertionSort
              (fun a b => posToLinearIndex st.settings.courtCount (b.row, b.startCol) ≤
                posToLinearIndex st.settings.courtCount (a.row, a.startCol)))
            (shouldShift st.series st.settings.courtCount
              (getRoundCellPositions row col tr.matchCount st.settings.courtCount)
              (posToLinearIndex st.settings.courtCount (row, col)))
            (shiftScheduledRound st.settings.courtCount (tr.matchCount : Int))
            (fun sr => rfl)
            (List.perm_insertionSort _ _)
          have hmid : List.Perm
              (((st.schedule.filter (fun sr => sr.roundId != roundId)).filter
                  (fun sr => !(shouldShift st.series st.settings.courtCount
                    (getRoundCellPositions row col tr.matchCount st.settings.courtCount)
                    (posToLinearIndex st.settings.courtCount (row, col)) sr)) ++
                (⟨roundId, row, col⟩ : ScheduledRound) ::
                ((((st.schedule.filter (fun sr => sr.roundId != roundId)).filter
                  (shouldShift st.series st.settings.courtCount
                    (getRoundCellPositions row col tr.matchCount st.settings.courtCount)
                    (posToLinearIndex st.settings.courtCount (row, col)))).insertionSort
                  (fun a b =>
                    posToLinearIndex st.settings.courtCount (b.row, b.startCol) ≤
                      posToLinearIndex st.settings.courtCount (a.row, a.startCol))).map
                  (shiftScheduledRound st.settings.courtCount
                    (tr.matchCount : Int)))).map (fun sr => sr.roundId))
              (roundId ::
                (st.schedule.filter (fun sr => sr.roundId != roundId)).map
                  (fun sr => sr.roundId)) := by
            rw [List.map_append, List.map_cons]
            refine List.perm_middle.trans (List.Perm.cons _ ?_)
            rw [← List.map_append]
            exact ids_perm_of_partition _ _ _ _ (fun sr => rfl)
              (List.perm_insertionSort _ _)
          apply hmid.symm.nodup
          rw [List.nodup_cons]
          exact ⟨fun hmem => (hfilter roundId).2 _ hmem rfl, (hfilter roundId).1⟩
  · -- scheduleRoundNext
    unfold scheduleRoundNext
    split
    · exact h
    · exact scheduleRound_nodup_ids h _ _ _
  · -- moveScheduledRound
    unfold moveScheduledRound
    simp only
    have : (st.schedule.map (fun sr =>
        if sr.roundId == roundId then { sr with row := row, startCol := col }
        else sr)).map (fun sr => sr.roundId) =
        st.schedule.map (fun sr => sr.roundId) := by
      rw [List.map_map]
      apply List.map_congr_left
      intro sr _
      by_cases hc : sr.roundId == roundId
      · simp only [Function.comp_apply, if_pos hc]
      · simp only [Function.comp_apply, if_neg hc]
    rw [this]
    exact h
  · -- unscheduleRound
    exact h.sublist ((List.filter_sublist _).map _)
  · -- removeEmptyCell
    cases hcell : (st.schedule.any (fun sr =>
        (getOccupiedPositions st.series st.settings.courtCount sr).any
          (fun p => p == (row, col)))) with
    | true => simpa only [removeEmptyCell, hcell, if_true] using h
    | false =>
      simp only [removeEmptyCell, hcell, Bool.false_eq_true, if_false]
      apply List.Perm.nodup _ h
      exact (ids_perm_of_partition st.schedule _ _
        (shiftScheduledRound st.settings.courtCount (-1)) (fun sr => rfl)
        (List.perm_insertionSort _ _)).symm
  · -- autoSchedule
    intro hids res hres
    simp only [autoScheduleFuel] at hres
    cases hfold : ((allRoundInfos st.series).insertionSort autoLE).foldlM
        (autoPlace st.series st.settings.courtCount fuel)
        ⟨[], fun _ _ => false, fun _ => 0⟩ with
    | none => rw [hfold] at hres; simp at hres
    | some a =>
      rw [hfold] at hres
      simp only [Option.some.injEq] at hres
      have hids' := autoFold_ids st.series st.settings.courtCount fuel _ _ _ hfold
      rw [← hres]
      simp only
      rw [hids']
      simp only [List.map_nil, List.nil_append]
      have hperm : List.Perm
          (((allRoundInfos st.series).insertionSort autoLE).map (fun e => e.1.id))
          (allRoundIds st.series) := by
        rw [← allRoundInfos_ids]
        exact (List.perm_insertionSort _ _).map _
      exact hperm.symm.nodup hids

/-- C7 counterexample: with two configured rounds sharing id `"r1"` in
different series and an empty (hence duplicate-free) schedule,
`autoSchedule` produces two entries with the same `roundId`. -/
theorem c7_unique_per_round_counterexample :
    (dupIdOneLaneState.schedule.map (fun sr => sr.roundId)).Nodup ∧
    (autoScheduleFuel 5 dupIdOneLaneState).map
      (fun res => res.schedule.map (fun sr => sr.roundId)) = some ["r1", "r1"] ∧
    ¬ (["r1", "r1"] : List String).Nodup := by
  refine ⟨by decide, by decide, by decide⟩

theorem c7_unique_per_round_witness :
    (pushState.schedule.map (fun sr => sr.roundId)).Nodup ∧
    (allRoundIds pushState.series).Nodup ∧
    ((scheduleRound pushState "b" 0 0).schedule.map (fun sr => sr.roundId)).Nodup ∧
    ((scheduleRoundWithPush pushState "b" 0 0).schedule.map
      (fun sr => sr.roundId)).Nodup ∧
    ((autoScheduleFuel 5 pushState).elim True (fun res =>
      (res.schedule.map (fun sr => sr.roundId)).Nodup)) := by
  have hc := c7_unique_per_round pushState (by decide) "b" 0 0 5
  refine ⟨by decide, by decide, hc.1, hc.2.1, ?_⟩
  cases hres : autoScheduleFuel 5 pushState with
  | none => trivial
  | some res => exact hc.2.2.2.2.2.2.2 (by decide) res hres

/-! ## Claim C9: termination of the auto-packer's row scan -/

theorem autoFindSpot_zero_lanes (series : List Series) (a : AutoState) (sid : String)
    (count : Nat) : ∀ (fuel : Nat) (row : Int),
    autoFindSpot series 0 a sid count fuel row = none := by
  intro fuel
  induction fuel with
  | zero => intro row; rfl
  | succ fuel ih =>
    intro row
    unfold autoFindSpot
    rw [show autoScanRow series 0 a sid count row = none from by
      simp [autoScanRow]]
    exact ih (row + 1)

/-- C9 counterexample: with `courtCount = 0` and one round to place, the
auto-packer's column loop never executes and the row scan increments
forever — no fuel completes the operation, mirroring the unbounded
`while (!placed)` loop of the source. -/
theorem c9_terminates_counterexample : autoNeverCompletes zeroLaneState := by
  intro fuel
  have hsorted : (allRoundInfos zeroLaneState.series).insertionSort autoLE =
      [(⟨"r1", "s1", 1, 1, "T1"⟩,
        ⟨"s1", "A", "A", "c", [⟨"r1", "s1", 1, 1, "T1"⟩]⟩)] := by decide
  have hstep : autoPlace zeroLaneState.series zeroLaneState.settings.courtCount fuel
      ⟨[], fun _ _ => false, fun _ => 0⟩
      (⟨"r1", "s1", 1, 1, "T1"⟩,
        ⟨"s1", "A", "A", "c", [⟨"r1", "s1", 1, 1, "T1"⟩]⟩) = none := by
    simp only [autoPlace]
    rw [show zeroLaneState.settings.courtCount = 0 from rfl,
      autoFindSpot_zero_lanes]
  simp only [autoScheduleFuel, hsorted, List.foldlM_cons, hstep, Option.bind_eq_bind,
    Option.none_bind]

theorem foldl_max_le (l : List Int) : ∀ (b c : Int), b ≤ c → (∀ x ∈ l, x ≤ c) →
    l.foldl max b ≤ c := by
  induction l with
  | nil => intro b c hb _; exact hb
  | cons y ys ih =>
    intro b c hb hall
    exact ih _ _ (max_le hb (hall y (List.mem_cons_self _ _)))
      (fun x hx => hall x (List.mem_cons_of_mem _ hx))

theorem le_foldr_max (l : List Nat) : ∀ (b : Nat) (x : Nat), x ∈ l → x ≤ l.foldr max b := by
  induction l with
  | nil => intro b x hx; simp at hx
  | cons y ys ih =>
    intro b x hx
    rcases List.mem_cons.mp hx with rfl | hx'
    · exact le_max_left _ _
    · exact le_trans (ih b x hx') (le_max_right _ _)

theorem maxMatchCount_le {series : List Series} {s : Series} {r : Round}
    (hs : s ∈ series) (hr : r ∈ s.rounds) : r.matchCount ≤ maxMatchCount series := by
  unfold maxMatchCount
  apply le_foldr_max
  exact List.mem_flatMap_of_mem hs (List.mem_map_of_mem _ hr)

theorem available_of_bounded {series : List Series} {cc : Nat} {a : AutoState} {B : Int}
    (hb : AutoBounded series cc a B) {row : Int} (hrow : B ≤ row) (col : Int)
    (count : Nat) :
    arePositionsAvailable series cc a.newSchedule row col count = true := by
  unfold arePositionsAvailable
  rw [Bool.not_eq_true', List.any_eq_false]
  intro sr hsr
  rw [Bool.not_eq_true]
  cases hfind : findRoundInSeries series sr.roundId with
  | none => simp only [hfind]
  | some rs =>
    obtain ⟨r, s⟩ := rs
    simp only [hfind]
    unfold hasCellOverlap
    rw [List.any_eq_false]
    intro p hp
    rw [Bool.not_eq_true, List.any_eq_false]
    intro q hq
    have h1 := (row_bounds_getRoundCellPositions _ _ _ _ _ hp).1
    have h2 := hb.2.1 sr hsr r s hfind q hq
    rw [Bool.not_eq_true, beq_eq_false_iff_ne]
    intro he
    have hq1 : q.1 = p.1 := by rw [he]
    omega

theorem noconflict_of_bounded {series : List Series} {cc : Nat} {a : AutoState} {B : Int}
    (hb : AutoBounded series cc a B) {row : Int} (hrow : B ≤ row) (col : Int)
    (count : Nat) (sid : String) :
    ((getRoundCellPositions row col count cc).any (fun p => a.rowSeriesMap p.1 sid)) =
      false := by
  rw [List.any_eq_false]
  intro p hp
  have h1 := (row_bounds_getRoundCellPositions _ _ _ _ _ hp).1
  rw [Bool.not_eq_true]
  exact hb.1 p.1 sid (by omega)

theorem autoFindSpot_succeeds {series : List Series} {cc : Nat} {a : AutoState} {B : Int}
    (hcc : 1 ≤ cc) (hb : AutoBounded series cc a B) (sid : String) (count : Nat) :
    ∀ (n : Nat) (startRow : Int), B ≤ startRow + n →
    ∃ rc, autoFindSpot series cc a sid count (n + 1) startRow = some rc := by
  intro n
  induction n with
  | zero =>
    intro startRow hB
    simp only [Nat.cast_zero, add_zero] at hB
    refine ⟨(startRow, 0), ?_⟩
    unfold autoFindSpot
    have hscan : autoScanRow series cc a sid count startRow = some (startRow, 0) := by
      unfold autoScanRow
      have hr : List.range cc = 0 :: (List.range (cc - 1)).map Nat.succ := by
        rw [← List.range_succ_eq_map]
        congr 1
        omega
      rw [hr, List.findSome?_cons]
      have hav := available_of_bounded hb hB (0 : Int) count
      have hnc := noconflict_of_bounded hb hB (0 : Int) count sid
      simp only [Nat.cast_zero, hav, if_true, hnc, Bool.false_eq_true, if_false]
    rw [hscan]
  | succ n ih =>
    intro startRow hB
    cases hscan : autoScanRow series cc a sid count startRow with
    | some rc =>
      refine ⟨rc, ?_⟩
      unfold autoFindSpot
      rw [hscan]
    | none =>
      obtain ⟨rc, hrc⟩ := ih (startRow + 1) (by push_cast at hB ⊢; omega)
      refine ⟨rc, ?_⟩
      unfold autoFindSpot
      rw [hscan]
      exact hrc

/-- Full description of a successful `autoPlace` step. -/
theorem autoPlace_spec {series : List Series} {cc fuel : Nat} {a a1 : AutoState}
    {e : Round × Series} (hstep : autoPlace series cc fuel a e = some a1) :
    ∃ row col : Int,
      autoFindSpot series cc a e.2.id e.1.matchCount fuel (a.seriesMinRow e.2.id) =
        some (row, col) ∧
      a1.newSchedule = a.newSchedule ++ [⟨e.1.id, row, col⟩] ∧
      a1.rowSeriesMap = (fun rw sid =>
        ((getRoundCellPositions row col e.1.matchCount cc).any (fun p => p.1 == rw) &&
          sid == e.2.id) || a.rowSeriesMap rw sid) ∧
      a1.seriesMinRow = (fun sid =>
        if sid == e.2.id then
          ((getRoundCellPositions row col e.1.matchCount cc).map Prod.fst).foldl max row + 1
        else a.seriesMinRow sid) := by
  simp only [autoPlace] at hstep
  cases hspot : autoFindSpot series cc a e.2.id e.1.matchCount fuel
      (a.seriesMinRow e.2.id) with
  | none => rw [hspot] at hstep; simp at hstep
  | some rc =>
    rw [hspot] at hstep
    obtain ⟨row, col⟩ := rc
    simp only [Option.some.injEq] at hstep
    exact ⟨row, col, rfl, by rw [← hstep], by rw [← hstep], by rw [← hstep]⟩

theorem autoPlace_bounded {series : List Series} {cc fuel : Nat} {a a1 : AutoState}
    {e : Round × Series} {B : Int} (hwfs : e.2 ∈ series) (hwfr : e.1 ∈ e.2.rounds)
    (hb : AutoBounded series cc a B) (hstep : autoPlace series cc fuel a e = some a1) :
    ∃ B', AutoBounded series cc a1 B' := by
  obtain ⟨row, col, hspot, hns, hmap, hmin⟩ := autoPlace_spec hstep
  refine ⟨max B (row + (maxMatchCount series : Int) + 1), ?_, ?_, ?_⟩
  · intro rw sid hge
    have h1 : a.rowSeriesMap rw sid = false := hb.1 rw sid (by omega)
    have h2 : ((getRoundCellPositions row col e.1.matchCount cc).any
        (fun p => p.1 == rw)) = false := by
      rw [List.any_eq_false]
      intro p hp
      have hup := (row_bounds_getRoundCellPositions _ _ _ _ _ hp).2
      have hcnt : (e.1.matchCount : Int) ≤ (maxMatchCount series : Int) := by
        exact_mod_cast maxMatchCount_le hwfs hwfr
      rw [Bool.not_eq_true, beq_eq_false_iff_ne]
      omega
    simp only [hmap, h1, h2, Bool.false_and, Bool.or_false]
  · intro sr hsr r s hres p hp
    rw [hns] at hsr
    rcases List.mem_append.mp hsr with hold | hnew
    · have := hb.2.1 sr hold r s hres p hp
      omega
    · simp only [List.mem_singleton] at hnew
      subst hnew
      obtain ⟨hsmem, hrmem, hid⟩ := findRoundInSeries_mem hres
      have hcnt : (r.matchCount : Int) ≤ (maxMatchCount series : Int) := by
        exact_mod_cast maxMatchCount_le hsmem hrmem
      have hup := (row_bounds_getRoundCellPositions _ _ _ _ _ hp).2
      simp only at hup
      omega
  · intro sid
    simp only [hmin]
    by_cases hc : sid == e.2.id
    · rw [if_pos hc]
      have hcnt : (e.1.matchCount : Int) ≤ (maxMatchCount series : Int) := by
        exact_mod_cast maxMatchCount_le hwfs hwfr
      have hfold : ((getRoundCellPositions row col e.1.matchCount cc).map
          Prod.fst).foldl max row ≤ row + (maxMatchCount series : Int) := by
        apply foldl_max_le
        · omega
        · intro x hx
          rw [List.mem_map] at hx
          obtain ⟨p, hp, rfl⟩ := hx
          have := (row_bounds_getRoundCellPositions _ _ _ _ _ hp).2
          omega
      omega
    · rw [if_neg hc]
      have := hb.2.2 sid
      omega

theorem autoFindSpot_mono {series : List Series} {cc : Nat} {a : AutoState} {sid : String}
    {count : Nat} : ∀ {fuel fuel' : Nat} {startRow : Int} {rc : Int × Int},
    fuel ≤ fuel' →
    autoFindSpot series cc a sid count fuel startRow = some rc →
    autoFindSpot series cc a sid count fuel' startRow = some rc := by
  intro fuel
  induction fuel with
  | zero => intro fuel' startRow rc _ hnone; simp [autoFindSpot] at hnone
  | succ fuel ih =>
    intro fuel' startRow rc hle hsome
    obtain ⟨m, rfl⟩ : ∃ m, fuel' = m + 1 := ⟨fuel' - 1, by omega⟩
    unfold autoFindSpot at hsome ⊢
    cases hscan : autoScanRow series cc a sid count startRow with
    | some rc' => rw [hscan] at hsome; exact hsome
    | none =>
      rw [hscan] at hsome
      exact ih (by omega) hsome

theorem autoPlace_mono {series : List Series} {cc : Nat} {a a1 : AutoState}
    {e : Round × Series} {fuel fuel' : Nat} (hle : fuel ≤ fuel')
    (hstep : autoPlace series cc fuel a e = some a1) :
    autoPlace series cc fuel' a e = some a1 := by
  simp only [autoPlace] at hstep ⊢
  cases hspot : autoFindSpot series cc a e.2.id e.1.matchCount fuel
      (a.seriesMinRow e.2.id) with
  | none => rw [hspot] at hstep; simp at hstep
  | some rc =>
    rw [hspot] at hstep
    rw [autoFindSpot_mono hle hspot]
    exact hstep

theorem autoFold_mono {series : List Series} {cc : Nat} :
    ∀ (rest : List (Round × Series)) {fuel fuel' : Nat} {a a' : AutoState},
    fuel ≤ fuel' →
    rest.foldlM (autoPlace series cc fuel) a = some a' →
    rest.foldlM (autoPlace series cc fuel') a = some a' := by
  intro rest
  induction rest with
  | nil => intro fuel fuel' a a' _ h; simpa using h
  | cons e rest ih =>
    intro fuel fuel' a a' hle hfold
    rw [List.foldlM_cons] at hfold ⊢
    cases hstep : autoPlace series cc fuel a e with
    | none => rw [hstep] at hfold; simp at hfold
    | some a1 =>
      rw [hstep] at hfold
      simp only [Option.bind_eq_bind, Option.some_bind] at hfold
      rw [autoPlace_mono hle hstep]
      simp only [Option.bind_eq_bind, Option.some_bind]
      exact ih hle hfold

theorem autoFold_succeeds {series : List Series} {cc : Nat} (hcc : 1 ≤ cc) :
    ∀ (rest : List (Round × Series)),
    (∀ e ∈ rest, e.2 ∈ series ∧ e.1 ∈ e.2.rounds) →
    ∀ (a : AutoState) (B : Int), AutoBounded series cc a B →
    ∃ fuel a', rest.foldlM (autoPlace series cc fuel) a = some a' := by
  intro rest
  induction rest with
  | nil => intro _ a B _; exact ⟨1, a, by simp⟩
  | cons e rest ih =>
    intro hwf a B hb
    have hstart : a.seriesMinRow e.2.id ≤ B := hb.2.2 e.2.id
    have hn : B ≤ a.seriesMinRow e.2.id + ((B - a.seriesMinRow e.2.id).toNat : Int) := by
      have := Int.self_le_toNat (B - a.seriesMinRow e.2.id)
      omega
    obtain ⟨rc, hspot⟩ := autoFindSpot_succeeds hcc hb e.2.id e.1.matchCount
      (B - a.seriesMinRow e.2.id).toNat (a.seriesMinRow e.2.id) hn
    have hstep : autoPlace series cc ((B - a.seriesMinRow e.2.id).toNat + 1) a e =
        some { newSchedule := a.newSchedule ++ [⟨e.1.id, rc.1, rc.2⟩]
               rowSeriesMap := fun r sid =>
                 ((getRoundCellPositions rc.1 rc.2 e.1.matchCount cc).any
                   (fun p => p.1 == r) && sid == e.2.id) || a.rowSeriesMap r sid
               seriesMinRow := fun sid =>
                 if sid == e.2.id then
                   ((getRoundCellPositions rc.1 rc.2 e.1.matchCount cc).map
                     Prod.fst).foldl max rc.1 + 1
                 else a.seriesMinRow sid } := by
      simp only [autoPlace, hspot]
    obtain ⟨B', hb'⟩ := autoPlace_bounded (hwf e (List.mem_cons_self _ _)).1
      (hwf e (List.mem_cons_self _ _)).2 hb hstep
    obtain ⟨fuel2, a', hfold⟩ := ih (fun e' he' => hwf e' (List.mem_cons_of_mem _ he'))
      _ B' hb'
    refine ⟨max ((B - a.seriesMinRow e.2.id).toNat + 1) fuel2, a', ?_⟩
    rw [List.foldlM_cons, autoPlace_mono (le_max_left _ _) hstep]
    simp only [Option.bind_eq_bind, Option.some_bind]
    exact autoFold_mono rest (le_max_right _ _) hfold

/-- C9 (amended): `autoSchedule` terminates — some finite fuel completes
its unbounded row scan — for every configuration with at least one lane
(`courtCount ≥ 1`) and every round of span at least 1.  (For
`courtCount = 0` the scan never terminates, see the counterexample; spans
of 0 make JavaScript produce `-Infinity` row bookkeeping and can likewise
loop forever, and the configuration UI enforces both bounds.) -/
theorem c9_terminates (st : TournamentState)
    (hcc : 1 ≤ st.settings.courtCount)
    (hm : ∀ s ∈ st.series, ∀ r ∈ s.rounds, 1 ≤ r.matchCount) :
    ∃ fuel res, autoScheduleFuel fuel st = some res := by
  have hb0 : AutoBounded st.series st.settings.courtCount
      ⟨[], fun _ _ => false, fun _ => 0⟩ 0 :=
    ⟨fun _ _ _ => rfl, by simp, fun _ => le_refl 0⟩
  have hwf : ∀ e ∈ (allRoundInfos st.series).insertionSort autoLE,
      e.2 ∈ st.series ∧ e.1 ∈ e.2.rounds := by
    intro e he
    exact mem_allRoundInfos.mp ((List.mem_insertionSort _).mp he)
  obtain ⟨fuel, a', hfold⟩ := autoFold_succeeds hcc _ hwf _ 0 hb0
  have hres : autoScheduleFuel fuel st = some { st with schedule := a'.newSchedule, scheduleHistory := pushHistory st.scheduleHistory st.schedule } := by
    simp only [autoScheduleFuel, hfold]
  exact ⟨fuel, _, hres⟩

theorem c9_terminates_witness :
    1 ≤ oneLaneState.settings.courtCount ∧
    (∀ s ∈ oneLaneState.series, ∀ r ∈ s.rounds, 1 ≤ r.matchCount) ∧
    ∃ fuel res, autoScheduleFuel fuel oneLaneState = some res :=
  ⟨by decide, by decide, c9_terminates oneLaneState (by decide) (by decide)⟩

/-! ## Claim C4: auto-packer series/row invariants -/

/-- A successful row scan starts at or after the requested row and its
result satisfies both acceptance conditions of the column loop. -/
theorem autoFindSpot_accepts {series : List Series} {cc : Nat} {a : AutoState}
    {sid : String} {count : Nat} :
    ∀ {fuel : Nat} {startRow row col : Int},
    autoFindSpot series cc a sid count fuel startRow = some (row, col) →
    startRow ≤ row ∧
    arePositionsAvailable series cc a.newSchedule row col count = true ∧
    ((getRoundCellPositions row col count cc).any (fun p => a.rowSeriesMap p.1 sid)) =
      false := by
  intro fuel
  induction fuel with
  | zero => intro startRow row col h; simp [autoFindSpot] at h
  | succ fuel ih =>
    intro startRow row col h
    unfold autoFindSpot at h
    cases hscan : autoScanRow series cc a sid count startRow with
    | some rc =>
      rw [hscan] at h
      simp only [Option.some.injEq] at h
      subst h
      obtain ⟨c, hcmem, hc⟩ := List.exists_of_findSome?_eq_some hscan
      simp only at hc
      by_cases hav : arePositionsAvailable series cc a.newSchedule startRow (c : Int) count
      · rw [if_pos hav] at hc
        by_cases hmk : ((getRoundCellPositions startRow (c : Int) count cc).any
            (fun p => a.rowSeriesMap p.1 sid)) = true
        · rw [if_pos hmk] at hc
          exact absurd hc (by simp)
        · rw [if_neg hmk] at hc
          simp only [Option.some.injEq, Prod.mk.injEq] at hc
          obtain ⟨hrow, hcol⟩ := hc
          subst hrow
          subst hcol
          exact ⟨le_refl _, hav, by simpa using hmk⟩
      · rw [if_neg hav] at hc
        exact absurd hc (by simp)
    | none =>
      rw [hscan] at h
      obtain ⟨h1, h2, h3⟩ := ih h
      exact ⟨by omega, h2, h3⟩

theorem resolvesTo_unique {series : List Series} {sr : ScheduledRound}
    {r1 r2 : Round} {s1 s2 : Series} (h1 : ResolvesTo series sr r1 s1)
    (h2 : ResolvesTo series sr r2 s2) : r1 = r2 ∧ s1 = s2 := by
  unfold ResolvesTo at h1 h2
  rw [h1] at h2
  simp only [Option.some.injEq, Prod.mk.injEq] at h2
  exact h2

/-- The footprint of a resolved round is nonempty and begins at the
entry's start row, provided every configured round has span at least 1.
-/
theorem resolved_startRow_mem {series : List Series} {cc : Nat} {sr : ScheduledRound}
    {r : Round} {s : Series}
    (hm : ∀ s' ∈ series, ∀ r' ∈ s'.rounds, 1 ≤ r'.matchCount)
    (hres : ResolvesTo series sr r s) :
    (sr.row, sr.startCol) ∈ getRoundCellPositions sr.row sr.startCol r.matchCount cc := by
  obtain ⟨hsmem, hrmem, -⟩ := findRoundInSeries_mem hres
  have hcount := hm s hsmem r hrmem
  have hh := @head_getRoundCellPositions r.matchCount (by omega) sr.row sr.startCol cc
  exact List.getElem?_mem hh

/-- One `autoPlace` step preserves the auto-packer invariants. -/
theorem autoPlace_inv {series : List Series} {cc fuel : Nat} {a a1 : AutoState}
    {e : Round × Series}
    (hids : (allRoundIds series).Nodup)
    (hm : ∀ s ∈ series, ∀ r ∈ s.rounds, 1 ≤ r.matchCount)
    (hwfs : e.2 ∈ series) (hwfr : e.1 ∈ e.2.rounds)
    (hlinkE : ∀ sr ∈ a.newSchedule, ∀ r s, ResolvesTo series sr r s → s = e.2 →
      r.roundNumber ≤ e.1.roundNumber)
    (hinv : AutoInv series cc a)
    (hstep : autoPlace series cc fuel a e = some a1) :
    AutoInv series cc a1 := by
  obtain ⟨row, col, hspot, hns, hmap, hmin⟩ := autoPlace_spec hstep
  obtain ⟨hrow_ge, hav, hnmk⟩ := autoFindSpot_accepts hspot
  have hresolveNew : ResolvesTo series ⟨e.1.id, row, col⟩ e.1 e.2 :=
    findRoundInSeries_eq_of_nodup hids hwfs hwfr
  have hmemNew : ∀ sr, sr ∈ a1.newSchedule → sr ∈ a.newSchedule ∨
      sr = (⟨e.1.id, row, col⟩ : ScheduledRound) := by
    intro sr hsr
    rw [hns] at hsr
    rcases List.mem_append.mp hsr with hold | hnew
    · exact Or.inl hold
    · exact Or.inr (by simpa using hnew)
  have hrowle : a.seriesMinRow e.2.id ≤ row := hrow_ge
  have hmaxge : ∀ p ∈ getRoundCellPositions row col e.1.matchCount cc,
      p.1 ≤ ((getRoundCellPositions row col e.1.matchCount cc).map Prod.fst).foldl
        max row := by
    intro p hp
    exact mem_le_foldl_max _ _ _ (List.mem_map_of_mem _ hp)
  have hrow_le_max : row ≤ ((getRoundCellPositions row col e.1.matchCount cc).map
      Prod.fst).foldl max row := le_foldl_max _ _
  refine ⟨?_, ?_, ?_, ?_, ?_⟩
  · -- resolves
    intro sr hsr
    rcases hmemNew sr hsr with hold | rfl
    · exact hinv.resolves sr hold
    · exact ⟨e.1, e.2, hresolveNew⟩
  · -- marked
    intro sr hsr r s hres p hp
    rcases hmemNew sr hsr with hold | rfl
    · have := hinv.marked sr hold r s hres p hp
      simp only [hmap, this, Bool.or_true]
    · obtain ⟨hr, hs⟩ := resolvesTo_unique hres hresolveNew
      subst hr
      subst hs
      simp only at hp
      have hpin : ((getRoundCellPositions row col e.1.matchCount cc).any
          (fun q => q.1 == p.1)) = true := by
        rw [List.any_eq_true]
        exact ⟨p, hp, by simp⟩
      simp only [hmap, hpin, beq_self_eq_true, Bool.and_true, Bool.true_and,
        Bool.true_or]
  · -- belowMin
    intro sr hsr r s hres p hp
    rcases hmemNew sr hsr with hold | rfl
    · have hold' := hinv.belowMin sr hold r s hres p hp
      simp only [hmin]
      by_cases hc : s.id == e.2.id
      · rw [if_pos hc]
        have heq : a.seriesMinRow s.id = a.seriesMinRow e.2.id := by
          rw [beq_iff_eq] at hc
          rw [hc]
        omega
      · rw [if_neg hc]
        exact hold'
    · obtain ⟨hr, hs⟩ := resolvesTo_unique hres hresolveNew
      subst hr
      subst hs
      simp only at hp ⊢
      simp only [hmin, beq_self_eq_true, if_true]
      have := hmaxge p hp
      omega
  · -- rowDisj
    intro sr1 hsr1 sr2 hsr2 r1 r2 s hres1 hres2 hne p1 hp1 p2 hp2
    rcases hmemNew sr1 hsr1 with hold1 | heq1 <;> rcases hmemNew sr2 hsr2 with hold2 | heq2
    · exact hinv.rowDisj sr1 hold1 sr2 hold2 r1 r2 s hres1 hres2 hne p1 hp1 p2 hp2
    · subst heq2
      obtain ⟨hr2, hs2⟩ := resolvesTo_unique hres2 hresolveNew
      subst hr2
      subst hs2
      have hmk1 := hinv.marked sr1 hold1 r1 e.2 hres1 p1 hp1
      intro hrows
      have hmk2 : a.rowSeriesMap p2.1 e.2.id = false := by
        rw [List.any_eq_false] at hnmk
        have := hnmk p2 (by simpa using hp2)
        simpa using this
      rw [hrows] at hmk1
      rw [hmk1] at hmk2
      exact absurd hmk2 (by simp)
    · subst heq1
      obtain ⟨hr1, hs1⟩ := resolvesTo_unique hres1 hresolveNew
      subst hr1
      subst hs1
      have hmk2 := hinv.marked sr2 hold2 r2 e.2 hres2 p2 hp2
      intro hrows
      have hmk1 : a.rowSeriesMap p1.1 e.2.id = false := by
        rw [List.any_eq_false] at hnmk
        have := hnmk p1 (by simpa using hp1)
        simpa using this
      rw [← hrows] at hmk2
      rw [hmk2] at hmk1
      exact absurd hmk1 (by simp)
    · subst heq1
      subst heq2
      obtain ⟨hr1, -⟩ := resolvesTo_unique hres1 hresolveNew
      obtain ⟨hr2, -⟩ := resolvesTo_unique hres2 hresolveNew
      subst hr1
      subst hr2
      exact absurd rfl hne
  · -- rowMono
    intro sr1 hsr1 sr2 hsr2 r1 r2 s hres1 hres2 hlt
    rcases hmemNew sr1 hsr1 with hold1 | heq1 <;> rcases hmemNew sr2 hsr2 with hold2 | heq2
    · exact hinv.rowMono sr1 hold1 sr2 hold2 r1 r2 s hres1 hres2 hlt
    · subst heq2
      obtain ⟨hr2, hs2⟩ := resolvesTo_unique hres2 hresolveNew
      subst hr2
      subst hs2
      have hstart := @resolved_startRow_mem series cc sr1 r1 e.2 hm hres1
      have hbelow := hinv.belowMin sr1 hold1 r1 e.2 hres1 _ hstart
      simp only at hbelow ⊢
      omega
    · subst heq1
      obtain ⟨hr1, hs1⟩ := resolvesTo_unique hres1 hresolveNew
      subst hr1
      subst hs1
      have := hlinkE sr2 hold2 r2 e.2 hres2 rfl
      omega
    · subst heq1
      subst heq2
      obtain ⟨hr1, -⟩ := resolvesTo_unique hres1 hresolveNew
      obtain ⟨hr2, -⟩ := resolvesTo_unique hres2 hresolveNew
      subst hr1
      subst hr2
      omega

theorem autoFold_inv {series : List Series} {cc fuel : Nat}
    (hids : (allRoundIds series).Nodup)
    (hm : ∀ s ∈ series, ∀ r ∈ s.rounds, 1 ≤ r.matchCount) :
    ∀ (rest : List (Round × Series)) (a a' : AutoState),
    (∀ e ∈ rest, e.2 ∈ series ∧ e.1 ∈ e.2.rounds) →
    rest.Pairwise autoLE →
    (∀ e ∈ rest, ∀ sr ∈ a.newSchedule, ∀ r s, ResolvesTo series sr r s → s = e.2 →
      r.roundNumber ≤ e.1.roundNumber) →
    AutoInv series cc a →
    rest.foldlM (autoPlace series cc fuel) a = some a' →
    AutoInv series cc a' := by
  intro rest
  induction rest with
  | nil =>
    intro a a' _ _ _ hinv hfold
    simp only [List.foldlM_nil, Option.pure_def, Option.some.injEq] at hfold
    exact hfold ▸ hinv
  | cons e rest ih =>
    intro a a' hwf hpair hlink hinv hfold
    rw [List.foldlM_cons] at hfold
    cases hstep : autoPlace series cc fuel a e with
    | none => rw [hstep] at hfold; simp at hfold
    | some a1 =>
      rw [hstep] at hfold
      simp only [Option.bind_eq_bind, Option.some_bind] at hfold
      have hwfe := hwf e (List.mem_cons_self _ _)
      have hinv1 : AutoInv series cc a1 :=
        autoPlace_inv hids hm hwfe.1 hwfe.2
          (fun sr hsr r s hres hs => hlink e (List.mem_cons_self _ _) sr hsr r s hres hs)
          hinv hstep
      obtain ⟨row, col, hspot, hns, -, -⟩ := autoPlace_spec hstep
      have hresolveNew : ResolvesTo series ⟨e.1.id, row, col⟩ e.1 e.2 :=
        findRoundInSeries_eq_of_nodup hids hwfe.1 hwfe.2
      apply ih a1 a' (fun e' he' => hwf e' (List.mem_cons_of_mem _ he'))
        (List.Pairwise.of_cons hpair) ?_ hinv1 hfold
      intro e' he' sr hsr r s hres hs
      rw [hns] at hsr
      rcases List.mem_append.mp hsr with hold | hnew
      · exact hlink e' (List.mem_cons_of_mem _ he') sr hold r s hres hs
      · simp only [List.mem_singleton] at hnew
        subst hnew
        obtain ⟨hr, hs'⟩ := resolvesTo_unique hres hresolveNew
        subst hr
        have hrel := List.rel_of_pairwise_cons hpair he'
        rcases hrel with hlt | ⟨-, hle⟩
        · exfalso
          have hnames : e.2.name = e'.2.name := by rw [← hs, hs']
          unfold strLt at hlt
          rw [hnames, charListLt_irrefl] at hlt
          exact absurd hlt (by simp)
        · exact hle

/-- C4 (amended): for every configuration whose round ids are pairwise
distinct and whose rounds all have span at least 1, whenever
`autoSchedule` completes, no grid row intersects the footprints of two
distinct rounds of the same series, and rounds of a series sit on
non-decreasing start rows following `roundNumber`. -/
theorem c4_no_series_row_clash (st : TournamentState) (fuel : Nat)
    (res : TournamentState)
    (hm : ∀ s ∈ st.series, ∀ r ∈ s.rounds, 1 ≤ r.matchCount)
    (hids : (allRoundIds st.series).Nodup)
    (hres : autoScheduleFuel fuel st = some res) :
    ∀ s ∈ st.series, ∀ r1 ∈ s.rounds, ∀ r2 ∈ s.rounds,
    ∀ sr1 ∈ res.schedule, ∀ sr2 ∈ res.schedule,
    sr1.roundId = r1.id → sr2.roundId = r2.id →
    (r1.id ≠ r2.id →
      ∀ p1 ∈ getRoundCellPositions sr1.row sr1.startCol r1.matchCount
        st.settings.courtCount,
      ∀ p2 ∈ getRoundCellPositions sr2.row sr2.startCol r2.matchCount
        st.settings.courtCount,
      p1.1 ≠ p2.1) ∧
    (r1.roundNumber < r2.roundNumber → sr1.row ≤ sr2.row) := by
  simp only [autoScheduleFuel] at hres
  cases hfold : ((allRoundInfos st.series).insertionSort autoLE).foldlM
      (autoPlace st.series st.settings.courtCount fuel)
      ⟨[], fun _ _ => false, fun _ => 0⟩ with
  | none => rw [hfold] at hres; simp at hres
  | some a =>
    rw [hfold] at hres
    simp only [Option.some.injEq] at hres
    have hinv : AutoInv st.series st.settings.courtCount a := by
      apply autoFold_inv hids hm _ _ a ?_ ?_ ?_ ?_ hfold
      · intro e he
        exact mem_allRoundInfos.mp ((List.mem_insertionSort _).mp he)
      · exact List.sorted_insertionSort autoLE (allRoundInfos st.series)
      · intro e _ sr hsr
        simp at hsr
      · exact ⟨fun sr hsr => by simp at hsr, fun sr hsr => by simp at hsr,
          fun sr hsr => by simp at hsr, fun sr hsr => by simp at hsr,
          fun sr hsr => by simp at hsr⟩
    intro s hs r1 hr1 r2 hr2 sr1 hsr1 sr2 hsr2 hid1 hid2
    have hres1 : ResolvesTo st.series sr1 r1 s := by
      unfold ResolvesTo
      rw [hid1]
      exact findRoundInSeries_eq_of_nodup hids hs hr1
    have hres2 : ResolvesTo st.series sr2 r2 s := by
      unfold ResolvesTo
      rw [hid2]
      exact findRoundInSeries_eq_of_nodup hids hs hr2
    have hsched : res.schedule = a.newSchedule := by rw [← hres]
    rw [hsched] at hsr1 hsr2
    exact ⟨hinv.rowDisj sr1 hsr1 sr2 hsr2 r1 r2 s hres1 hres2,
      hinv.rowMono sr1 hsr1 sr2 hsr2 r1 r2 s hres1 hres2⟩

/-- C4 counterexample: two series in which a round of series `B` reuses
the id `"q"` of a round of series `A`.  The auto-packer places `A`'s
round `"p"` at `(0,0)`, `A`'s round `"q"` at `(1,0)`, and `B`'s round —
also recorded under id `"q"` — at `(0,1)`.  The schedule then contains
round `"p"` of series `A` and an entry matching round `"q"` of series
`A`, both with footprints on row 0: the claimed guarantee fails without
the distinct-ids proviso. -/
theorem c4_no_series_row_clash_counterexample :
    (autoScheduleFuel 5 dupIdState).map (fun res => res.schedule) =
      some [⟨"p", 0, 0⟩, ⟨"q", 1, 0⟩, ⟨"q", 0, 1⟩] ∧
    dupIdStateA ∈ dupIdState.series ∧
    (⟨"p", "sA", 1, 1, "T1"⟩ : Round) ∈ dupIdStateA.rounds ∧
    (⟨"q", "sA", 2, 1, "T2"⟩ : Round) ∈ dupIdStateA.rounds ∧
    ((0, 0) : Int × Int) ∈ getRoundCellPositions 0 0 1 dupIdState.settings.courtCount ∧
    ((0, 1) : Int × Int) ∈ getRoundCellPositions 0 1 1 dupIdState.settings.courtCount ∧
    ¬ (((0, 0) : Int × Int).1 ≠ ((0, 1) : Int × Int).1) := by
  refine ⟨by decide, by decide, by decide, by decide, by decide, by decide, by decide⟩

theorem c4_no_series_row_clash_witness :
    (∀ s ∈ pushState.series, ∀ r ∈ s.rounds, 1 ≤ r.matchCount) ∧
    (allRoundIds pushState.series).Nodup ∧
    autoScheduleFuel 5 pushState =
      some ⟨⟨4, 35, "08:00", "18:00"⟩, [pushSeries],
        [⟨"a", 0, 0⟩, ⟨"b", 1, 0⟩], [[⟨"a", 0, 0⟩]], Phase.schedule⟩ ∧
    ((0 : Int), (0 : Int)).1 ≠ ((1 : Int), (0 : Int)).1 ∧
    (⟨"a", 0, 0⟩ : ScheduledRound).row ≤ (⟨"b", 1, 0⟩ : ScheduledRound).row := by
  have h := c4_no_series_row_clash pushState 5
    ⟨⟨4, 35, "08:00", "18:00"⟩, [pushSeries],
      [⟨"a", 0, 0⟩, ⟨"b", 1, 0⟩], [[⟨"a", 0, 0⟩]], Phase.schedule⟩
    (by decide) (by decide) (by decide)
    pushSeries (by decide) ⟨"a", "s2", 1, 2, "T1"⟩ (by decide)
    ⟨"b", "s2", 2, 2, "T2"⟩ (by decide)
    ⟨"a", 0, 0⟩ (by decide) ⟨"b", 1, 0⟩ (by decide) (by decide) (by decide)
  refine ⟨by decide, by decide, by decide, ?_, h.2 (by decide)⟩
  exact h.1 (by decide) (0, 0) (by decide) (1, 0) (by decide)

end Echeancier
